import Mathlib

/-!
Shallow embedding of the lexical scanner of rust-lox (src/scanner.rs),
together with proofs of the specified properties.

The source text is modelled as a list of bytes (`List Nat`, each < 256 in
practice), matching the Rust code's byte-indexed cursor over a UTF-8 buffer.
Lexemes and literals are byte lists (the Rust code takes `&str` slices by
byte index); error messages are modelled as `List Char`, matching the Rust
`String` messages.  All loops take an explicit fuel argument; the top level
passes `source.length + 1`, which is shown sufficient because every loop
step advances the cursor.
-/

namespace RustLox

/-- Token categories of the scanner (token_type.rs, modelled from the spec:
the file `src/token_type.rs` is not in the sources; the closed set of
variants is fully determined by its uses in scanner.rs and spec section 3). -/
inductive TokenType where
  | LeftParen | RightParen | LeftBrace | RightBrace
  | Comma | Dot | Minus | Plus | Semicolon | Star | Slash
  | Bang | BangEqual | Equal | EqualEqual
  | Less | LessEqual | Greater | GreaterEqual
  | String | Number | Identifier
  | And | Class | Else | False | For | Fun | If | Nil | Or
  | Print | Return | Super | This | True | Var | While
  | Eof
deriving DecidableEq, Repr

/-- A scanned token (token.rs, modelled from the spec: the file
`src/token.rs` is not in the sources; the record shape — type, lexeme,
optional literal, 1-based line — is fully determined by its uses in
scanner.rs and spec section 3). -/
structure Token where
  token_type : TokenType
  lexeme : List Nat
  literal : Option (List Nat)
  line : Nat
deriving DecidableEq, Repr

/-- Scanner state: source buffer, accumulated tokens, the two cursor
offsets, the current line, and the accumulated (line, message) errors. -/
structure Scanner where
  source : List Nat
  tokens : List Token
  start : Nat
  current : Nat
  line : Nat
  errors : List (Nat × List Char)
deriving DecidableEq, Repr

namespace Scanner

/-- Rust `u8::is_ascii_digit`. -/
def isAsciiDigit (c : Nat) : Bool := 48 ≤ c && c ≤ 57

/-- Rust `u8::is_ascii_alphabetic`. -/
def isAsciiAlpha (c : Nat) : Bool := (65 ≤ c && c ≤ 90) || (97 ≤ c && c ≤ 122)

/-- Rust `u8::is_ascii_alphanumeric`. -/
def isAsciiAlnum (c : Nat) : Bool := isAsciiDigit c || isAsciiAlpha c

/-- Byte-index slice `&source[a..b]` of the buffer. -/
def sliceBytes (src : List Nat) (a b : Nat) : List Nat := (src.take b).drop a

/-- Message of an `Unterminated string.` error. -/
def unterminatedStringMsg : List Char :=
  ['U','n','t','e','r','m','i','n','a','t','e','d',' ',
   's','t','r','i','n','g','.']

/-- Message of an `Unexpected character: <c>` error; the offending byte is
rendered as the character with that code point (Rust `c as char`). -/
def unexpectedCharMsg (c : Nat) : List Char :=
  ['U','n','e','x','p','e','c','t','e','d',' ',
   'c','h','a','r','a','c','t','e','r',':',' '] ++ [Char.ofNat c]

/-- `Scanner::is_at_end`. -/
def is_at_end (s : Scanner) : Bool := s.source.length ≤ s.current

/-- `Scanner::advance`: read the byte at `current` and move past it.  The
Rust code indexes unconditionally (it would panic out of bounds); the total
model reads with a default of 0 and the safety claim is settled separately
with a checked variant. -/
def advance (s : Scanner) : Nat × Scanner :=
  (s.source.getD s.current 0, { s with current := s.current + 1 })

/-- `Scanner::peek`: one-byte lookahead with a NUL sentinel at end. -/
def peek (s : Scanner) : Nat :=
  if is_at_end s then 0 else s.source.getD s.current 0

/-- `Scanner::peek_next`: two-byte lookahead with a NUL sentinel. -/
def peek_next (s : Scanner) : Nat :=
  if s.source.length ≤ s.current + 1 then 0 else s.source.getD (s.current + 1) 0

/-- `Scanner::add_token`: push a token whose lexeme is
`source[start..current]`, with no literal, at the current line. -/
def add_token (tt : TokenType) (s : Scanner) : Scanner :=
  { s with tokens := s.tokens ++ [⟨tt, sliceBytes s.source s.start s.current, none, s.line⟩] }

/-- `Scanner::match_char`: conditional one-byte consume. -/
def match_char (expected : Nat) (s : Scanner) : Bool × Scanner :=
  if is_at_end s then (false, s)
  else if s.source.getD s.current 0 ≠ expected then (false, s)
  else (true, { s with current := s.current + 1 })

/-- Body loop of `Scanner::string`: consume until a closing quote or end of
input, bumping `line` at each newline. -/
def stringLoop : Nat → Scanner → Scanner
  | 0, s => s
  | fuel + 1, s =>
    if peek s != 34 && !(is_at_end s) then
      stringLoop fuel
        { s with line := if peek s = 10 then s.line + 1 else s.line,
                 current := s.current + 1 }
    else s

/-- `Scanner::string` (called after the opening quote was consumed). -/
def string (fuel : Nat) (s : Scanner) : Scanner :=
  let t := stringLoop fuel s
  if is_at_end t then
    { t with errors := t.errors ++ [(t.line, unterminatedStringMsg)] }
  else
    let t' := { t with current := t.current + 1 }
    let value := sliceBytes t'.source (t'.start + 1) (t'.current - 1)
    { t' with tokens := t'.tokens ++ [⟨TokenType.String, value, some value, t'.line⟩] }

/-- Digit-run loop used twice by `Scanner::number`. -/
def digitsLoop : Nat → Scanner → Scanner
  | 0, s => s
  | fuel + 1, s =>
    if isAsciiDigit (peek s) then
      digitsLoop fuel { s with current := s.current + 1 }
    else s

/-- Cursor state after `Scanner::number` has consumed the integer part and,
when a dot is followed by a digit, the dot and the fractional part. -/
def numberEndState (fuel : Nat) (s : Scanner) : Scanner :=
  let t := digitsLoop fuel s
  if peek t = 46 && isAsciiDigit (peek_next t) then
    digitsLoop fuel { t with current := t.current + 1 }
  else t

/-- `Scanner::number` (called after the first digit was consumed). -/
def number (fuel : Nat) (s : Scanner) : Scanner :=
  let t2 := numberEndState fuel s
  let value := sliceBytes t2.source t2.start t2.current
  { t2 with tokens := t2.tokens ++ [⟨TokenType.Number, value, some value, t2.line⟩] }

/-- Alphanumeric/underscore run loop of `Scanner::identifier`. -/
def identLoop : Nat → Scanner → Scanner
  | 0, s => s
  | fuel + 1, s =>
    if isAsciiAlnum (peek s) || peek s == 95 then
      identLoop fuel { s with current := s.current + 1 }
    else s

/-- The sixteen reserved words (as byte lists) with their token types. -/
def keywords : List (List Nat × TokenType) :=
  [([97,110,100], .And),                     -- and
   ([99,108,97,115,115], .Class),            -- class
   ([101,108,115,101], .Else),               -- else
   ([102,97,108,115,101], .False),           -- false
   ([102,117,110], .Fun),                    -- fun
   ([102,111,114], .For),                    -- for
   ([105,102], .If),                         -- if
   ([110,105,108], .Nil),                    -- nil
   ([111,114], .Or),                         -- or
   ([112,114,105,110,116], .Print),          -- print
   ([114,101,116,117,114,110], .Return),     -- return
   ([115,117,112,101,114], .Super),          -- super
   ([116,104,105,115], .This),               -- this
   ([116,114,117,101], .True),               -- true
   ([118,97,114], .Var),                     -- var
   ([119,104,105,108,101], .While)]          -- while

/-- Exact, case-sensitive keyword lookup; anything else is IDENTIFIER. -/
def keywordType (text : List Nat) : TokenType :=
  ((keywords.find? (fun p => p.1 = text)).map Prod.snd).getD .Identifier

/-- `Scanner::identifier` (called after the first letter or underscore was
consumed). -/
def identifier (fuel : Nat) (s : Scanner) : Scanner :=
  let t := identLoop fuel s
  let text := sliceBytes t.source t.start t.current
  { t with tokens := t.tokens ++ [⟨keywordType text, text, none, t.line⟩] }

/-- Line-comment loop: discard until newline or end of input. -/
def commentLoop : Nat → Scanner → Scanner
  | 0, s => s
  | fuel + 1, s =>
    if peek s != 10 && !(is_at_end s) then
      commentLoop fuel { s with current := s.current + 1 }
    else s

/-- `Scanner::scan_token`: consume one byte and dispatch on it (the byte
values are ASCII codes: 40 `(`, 41 `)`, 123 `{`, 125 `}`, 44 `,`, 46 `.`,
45 `-`, 43 `+`, 59 `;`, 42 `*`, 33 `!`, 61 `=`, 60 `<`, 62 `>`, 47 `/`,
32 space, 13 CR, 9 tab, 10 LF, 34 `"`, 95 `_`). -/
def scan_token (s : Scanner) : Scanner :=
  let fuel := s.source.length + 1
  let p := advance s
  let c := p.1
  let s1 := p.2
  if c = 40 then add_token .LeftParen s1
  else if c = 41 then add_token .RightParen s1
  else if c = 123 then add_token .LeftBrace s1
  else if c = 125 then add_token .RightBrace s1
  else if c = 44 then add_token .Comma s1
  else if c = 46 then add_token .Dot s1
  else if c = 45 then add_token .Minus s1
  else if c = 43 then add_token .Plus s1
  else if c = 59 then add_token .Semicolon s1
  else if c = 42 then add_token .Star s1
  else if c = 33 then
    let q := match_char 61 s1
    add_token (if q.1 then .BangEqual else .Bang) q.2
  else if c = 61 then
    let q := match_char 61 s1
    add_token (if q.1 then .EqualEqual else .Equal) q.2
  else if c = 60 then
    let q := match_char 61 s1
    add_token (if q.1 then .LessEqual else .Less) q.2
  else if c = 62 then
    let q := match_char 61 s1
    add_token (if q.1 then .GreaterEqual else .Greater) q.2
  else if c = 47 then
    let q := match_char 47 s1
    if q.1 then commentLoop fuel q.2 else add_token .Slash q.2
  else if c = 32 then s1
  else if c = 13 then s1
  else if c = 9 then s1
  else if c = 10 then { s1 with line := s1.line + 1 }
  else if c = 34 then string fuel s1
  else if isAsciiDigit c then number fuel s1
  else if isAsciiAlpha c || c == 95 then identifier fuel s1
  else { s1 with errors := s1.errors ++ [(s1.line, unexpectedCharMsg c)] }

/-- Top-level loop of `Scanner::scan_tokens`: set `start := current` and
scan one lexeme, until the end of the buffer. -/
def scanLoop : Nat → Scanner → Scanner
  | 0, s => s
  | fuel + 1, s =>
    if !(is_at_end s) then
      scanLoop fuel (scan_token { s with start := s.current })
    else s

/-- Fresh scanner over a source buffer (`Scanner::new`). -/
def new (src : List Nat) : Scanner :=
  { source := src, tokens := [], start := 0, current := 0, line := 1, errors := [] }

/-- `Scanner::scan_tokens`: run the loop, then append the EOF token with an
empty lexeme at the final line.  Returns the whole final scanner state so
the token and error lists are both visible. -/
def scan_tokens (src : List Nat) : Scanner :=
  let s1 := scanLoop (src.length + 1) (new src)
  { s1 with tokens := s1.tokens ++ [⟨TokenType.Eof, [], none, s1.line⟩] }

/-! ### Basic lemmas about the cursor primitives -/

theorem peek_eq (s : Scanner) : peek s = s.source.getD s.current 0 := by
  unfold peek is_at_end
  split
  · next h =>
    simp only [decide_eq_true_eq] at h
    exact (List.getD_eq_default _ _ h).symm
  · rfl

theorem peek_next_eq (s : Scanner) :
    peek_next s = s.source.getD (s.current + 1) 0 := by
  unfold peek_next
  split
  · next h => exact (List.getD_eq_default _ _ h).symm
  · rfl

theorem getD_eq_zero_of_le {src : List Nat} {i : Nat} (h : src.length ≤ i) :
    src.getD i 0 = 0 := List.getD_eq_default _ _ h

theorem lt_length_of_getD_ne {src : List Nat} {i : Nat}
    (h : src.getD i 0 ≠ 0) : i < src.length := by
  by_contra hn
  exact h (getD_eq_zero_of_le (Nat.le_of_not_lt hn))

theorem isAsciiDigit_zero : isAsciiDigit 0 = false := by decide

theorem isAsciiAlnum_zero : isAsciiAlnum 0 = false := by decide

/-! ### Loop lemmas: preserved fields, consumed ranges, stopping -/

theorem digitsLoop_fields (fuel : Nat) : ∀ s : Scanner,
    (digitsLoop fuel s).source = s.source ∧
    (digitsLoop fuel s).tokens = s.tokens ∧
    (digitsLoop fuel s).errors = s.errors ∧
    (digitsLoop fuel s).start = s.start ∧
    (digitsLoop fuel s).line = s.line ∧
    s.current ≤ (digitsLoop fuel s).current := by
  induction fuel with
  | zero => intro s; simp [digitsLoop]
  | succ n ih =>
    intro s
    rw [digitsLoop]
    split
    · have h := ih { s with current := s.current + 1 }
      exact ⟨h.1, h.2.1, h.2.2.1, h.2.2.2.1, h.2.2.2.2.1,
        Nat.le_trans (Nat.le_succ _) h.2.2.2.2.2⟩
    · simp

theorem digitsLoop_consumed (fuel : Nat) : ∀ s : Scanner, ∀ j : Nat,
    s.current ≤ j → j < (digitsLoop fuel s).current →
    isAsciiDigit (s.source.getD j 0) = true := by
  induction fuel with
  | zero => intro s j h1 h2; rw [digitsLoop] at h2; omega
  | succ n ih =>
    intro s j h1 h2
    rw [digitsLoop] at h2
    split at h2
    · next hd =>
      rcases Nat.eq_or_lt_of_le h1 with heq | hlt
      · subst heq
        rwa [peek_eq] at hd
      · exact ih { s with current := s.current + 1 } j hlt h2
    · omega

theorem digitsLoop_stop (fuel : Nat) : ∀ s : Scanner,
    s.source.length ≤ s.current + fuel →
    isAsciiDigit (peek (digitsLoop fuel s)) = false := by
  induction fuel with
  | zero =>
    intro s h
    simp only [digitsLoop]
    rw [peek_eq, getD_eq_zero_of_le (by omega)]
    exact isAsciiDigit_zero
  | succ n ih =>
    intro s h
    rw [digitsLoop]
    split
    · exact ih { s with current := s.current + 1 } (by simpa using by omega)
    · next hd => simpa using hd

theorem identLoop_fields (fuel : Nat) : ∀ s : Scanner,
    (identLoop fuel s).source = s.source ∧
    (identLoop fuel s).tokens = s.tokens ∧
    (identLoop fuel s).errors = s.errors ∧
    (identLoop fuel s).start = s.start ∧
    (identLoop fuel s).line = s.line ∧
    s.current ≤ (identLoop fuel s).current := by
  induction fuel with
  | zero => intro s; simp [identLoop]
  | succ n ih =>
    intro s
    rw [identLoop]
    split
    · have h := ih { s with current := s.current + 1 }
      exact ⟨h.1, h.2.1, h.2.2.1, h.2.2.2.1, h.2.2.2.2.1,
        Nat.le_trans (Nat.le_succ _) h.2.2.2.2.2⟩
    · simp

theorem identLoop_consumed (fuel : Nat) : ∀ s : Scanner, ∀ j : Nat,
    s.current ≤ j → j < (identLoop fuel s).current →
    (isAsciiAlnum (s.source.getD j 0) || s.source.getD j 0 == 95) = true := by
  induction fuel with
  | zero => intro s j h1 h2; rw [identLoop] at h2; omega
  | succ n ih =>
    intro s j h1 h2
    rw [identLoop] at h2
    split at h2
    · next hd =>
      rcases Nat.eq_or_lt_of_le h1 with heq | hlt
      · subst heq
        rwa [peek_eq] at hd
      · exact ih { s with current := s.current + 1 } j hlt h2
    · omega

theorem identLoop_stop (fuel : Nat) : ∀ s : Scanner,
    s.source.length ≤ s.current + fuel →
    (isAsciiAlnum (peek (identLoop fuel s)) ||
      peek (identLoop fuel s) == 95) = false := by
  induction fuel with
  | zero =>
    intro s h
    simp only [identLoop]
    rw [peek_eq, getD_eq_zero_of_le (by omega)]
    decide
  | succ n ih =>
    intro s h
    rw [identLoop]
    split
    · exact ih { s with current := s.current + 1 } (by simpa using by omega)
    · next hd => simpa using hd

theorem stringLoop_fields (fuel : Nat) : ∀ s : Scanner,
    (stringLoop fuel s).source = s.source ∧
    (stringLoop fuel s).tokens = s.tokens ∧
    (stringLoop fuel s).errors = s.errors ∧
    (stringLoop fuel s).start = s.start ∧
    s.line ≤ (stringLoop fuel s).line ∧
    s.current ≤ (stringLoop fuel s).current := by
  induction fuel with
  | zero => intro s; simp [stringLoop]
  | succ n ih =>
    intro s
    rw [stringLoop]
    split
    · have h := ih { s with
        line := if peek s = 10 then s.line + 1 else s.line,
        current := s.current + 1 }
      refine ⟨h.1, h.2.1, h.2.2.1, h.2.2.2.1, ?_,
        Nat.le_trans (Nat.le_succ _) h.2.2.2.2.2⟩
      refine Nat.le_trans ?_ h.2.2.2.2.1
      show s.line ≤ (if peek s = 10 then s.line + 1 else s.line)
      split <;> simp
    · simp

theorem stringLoop_stop (fuel : Nat) : ∀ s : Scanner,
    s.source.length ≤ s.current + fuel →
    is_at_end (stringLoop fuel s) = true ∨ peek (stringLoop fuel s) = 34 := by
  induction fuel with
  | zero =>
    intro s h
    left
    simp only [stringLoop]
    simp [is_at_end]
    omega
  | succ n ih =>
    intro s h
    rw [stringLoop]
    split
    · exact ih _ (by simpa using by omega)
    · next hd =>
      simp only [Bool.and_eq_true, bne_iff_ne, ne_eq, Bool.not_eq_true'] at hd
      by_cases he : is_at_end s = true
      · exact Or.inl he
      · right
        by_contra hne
        exact hd ⟨hne, by simpa using he⟩

theorem commentLoop_fields (fuel : Nat) : ∀ s : Scanner,
    (commentLoop fuel s).source = s.source ∧
    (commentLoop fuel s).tokens = s.tokens ∧
    (commentLoop fuel s).errors = s.errors ∧
    (commentLoop fuel s).start = s.start ∧
    (commentLoop fuel s).line = s.line ∧
    s.current ≤ (commentLoop fuel s).current := by
  induction fuel with
  | zero => intro s; simp [commentLoop]
  | succ n ih =>
    intro s
    rw [commentLoop]
    split
    · have h := ih { s with current := s.current + 1 }
      exact ⟨h.1, h.2.1, h.2.2.1, h.2.2.2.1, h.2.2.2.2.1,
        Nat.le_trans (Nat.le_succ _) h.2.2.2.2.2⟩
    · simp

/-! ### Shape lemmas for the token-emitting helpers -/

theorem add_token_eq (tt : TokenType) (s : Scanner) :
    add_token tt s = { s with tokens := s.tokens ++
      [⟨tt, sliceBytes s.source s.start s.current, none, s.line⟩] } := rfl

theorem match_char_snd (e : Nat) (s : Scanner) :
    (match_char e s).2 =
      { s with current :=
          if (match_char e s).1 then s.current + 1 else s.current } := by
  unfold match_char
  split
  · rfl
  · split <;> rfl

theorem match_char_true_iff {e : Nat} (he : e ≠ 0) (s : Scanner) :
    (match_char e s).1 = true ↔ s.source.getD s.current 0 = e := by
  unfold match_char
  split
  · next h =>
    simp only [is_at_end, decide_eq_true_eq] at h
    constructor
    · intro hx; exact Bool.noConfusion hx
    · intro hx
      rw [getD_eq_zero_of_le h] at hx
      exact absurd hx.symm he
  · next h =>
    split
    · next hne =>
      constructor
      · intro hx; exact Bool.noConfusion hx
      · intro hx; exact absurd hx hne
    · next hne =>
      simp only [ne_eq, Decidable.not_not] at hne
      exact ⟨fun _ => hne, fun _ => rfl⟩

/-- Relation between a state and a later state in which only the cursor has
moved (forward): everything else is preserved. -/
def Keeps (s t : Scanner) : Prop :=
  t.source = s.source ∧ t.tokens = s.tokens ∧ t.errors = s.errors ∧
  t.start = s.start ∧ t.line = s.line ∧ s.current ≤ t.current

theorem keeps_trans {a b c : Scanner} (h1 : Keeps a b) (h2 : Keeps b c) :
    Keeps a c :=
  ⟨h2.1.trans h1.1, h2.2.1.trans h1.2.1, h2.2.2.1.trans h1.2.2.1,
   h2.2.2.2.1.trans h1.2.2.2.1, h2.2.2.2.2.1.trans h1.2.2.2.2.1,
   Nat.le_trans h1.2.2.2.2.2 h2.2.2.2.2.2⟩

theorem keeps_bump (t : Scanner) : Keeps t { t with current := t.current + 1 } :=
  ⟨rfl, rfl, rfl, rfl, rfl, Nat.le_succ _⟩

theorem digitsLoop_keeps (fuel : Nat) (s : Scanner) :
    Keeps s (digitsLoop fuel s) := digitsLoop_fields fuel s

theorem identLoop_keeps (fuel : Nat) (s : Scanner) :
    Keeps s (identLoop fuel s) := identLoop_fields fuel s

theorem commentLoop_keeps (fuel : Nat) (s : Scanner) :
    Keeps s (commentLoop fuel s) := commentLoop_fields fuel s

theorem numberEndState_keeps (fuel : Nat) (s : Scanner) :
    Keeps s (numberEndState fuel s) := by
  unfold numberEndState
  dsimp only
  split
  · exact keeps_trans (digitsLoop_keeps fuel s)
      (keeps_trans (keeps_bump _) (digitsLoop_keeps fuel _))
  · exact digitsLoop_keeps fuel s

theorem string_fields_common (fuel : Nat) (s : Scanner) :
    (string fuel s).source = s.source ∧
    (string fuel s).start = s.start ∧
    (string fuel s).line = (stringLoop fuel s).line := by
  have hf := stringLoop_fields fuel s
  unfold string
  dsimp only
  split
  · exact ⟨hf.1, hf.2.2.2.1, rfl⟩
  · exact ⟨hf.1, hf.2.2.2.1, rfl⟩

theorem string_fields_unterminated (fuel : Nat) (s : Scanner)
    (h : is_at_end (stringLoop fuel s) = true) :
    (string fuel s).tokens = s.tokens ∧
    (string fuel s).errors =
      s.errors ++ [((stringLoop fuel s).line, unterminatedStringMsg)] ∧
    (string fuel s).current = (stringLoop fuel s).current := by
  have hf := stringLoop_fields fuel s
  unfold string
  dsimp only
  split
  · exact ⟨hf.2.1, by rw [hf.2.2.1], rfl⟩
  · next hc => rw [h] at hc; exact absurd rfl hc

theorem string_fields_terminated (fuel : Nat) (s : Scanner)
    (h : is_at_end (stringLoop fuel s) = false) :
    (string fuel s).tokens = s.tokens ++
      [⟨TokenType.String,
        sliceBytes s.source (s.start + 1) (stringLoop fuel s).current,
        some (sliceBytes s.source (s.start + 1) (stringLoop fuel s).current),
        (stringLoop fuel s).line⟩] ∧
    (string fuel s).errors = s.errors ∧
    (string fuel s).current = (stringLoop fuel s).current + 1 := by
  have hf := stringLoop_fields fuel s
  unfold string
  dsimp only
  split
  · next hc => rw [h] at hc; exact Bool.noConfusion hc
  · refine ⟨?_, hf.2.2.1, rfl⟩
    rw [hf.2.1, hf.1, hf.2.2.2.1]
    simp

theorem number_fields (fuel : Nat) (s : Scanner) :
    (number fuel s).source = s.source ∧
    (number fuel s).errors = s.errors ∧
    (number fuel s).start = s.start ∧
    (number fuel s).line = s.line ∧
    s.current ≤ (number fuel s).current ∧
    (number fuel s).tokens = s.tokens ++
      [⟨TokenType.Number,
        sliceBytes s.source s.start (number fuel s).current,
        some (sliceBytes s.source s.start (number fuel s).current),
        s.line⟩] := by
  have hk := numberEndState_keeps fuel s
  unfold number
  dsimp only
  refine ⟨hk.1, hk.2.2.1, hk.2.2.2.1, hk.2.2.2.2.1, hk.2.2.2.2.2, ?_⟩
  rw [hk.2.1, hk.1, hk.2.2.2.1, hk.2.2.2.2.1]

theorem identifier_fields (fuel : Nat) (s : Scanner) :
    (identifier fuel s).source = s.source ∧
    (identifier fuel s).errors = s.errors ∧
    (identifier fuel s).start = s.start ∧
    (identifier fuel s).line = s.line ∧
    s.current ≤ (identifier fuel s).current ∧
    (identifier fuel s).tokens = s.tokens ++
      [⟨keywordType (sliceBytes s.source s.start (identifier fuel s).current),
        sliceBytes s.source s.start (identifier fuel s).current,
        none, s.line⟩] := by
  have h1 := identLoop_fields fuel s
  unfold identifier
  dsimp only
  refine ⟨h1.1, h1.2.2.1, h1.2.2.2.1, h1.2.2.2.2.1, h1.2.2.2.2.2, ?_⟩
  rw [h1.2.1, h1.1, h1.2.2.2.1, h1.2.2.2.2.1]

/-! ### The shape of one `scan_token` step -/

theorem keywordType_ne_eof (text : List Nat) :
    keywordType text ≠ TokenType.Eof := by
  unfold keywordType
  cases hf : keywords.find? (fun p => p.1 = text) with
  | none => decide
  | some p =>
    have hp := List.mem_of_find?_eq_some hf
    have hall : ∀ q ∈ keywords, q.2 ≠ TokenType.Eof := by decide
    exact hall p hp

/-- What one dispatch step guarantees relative to the state it starts from:
the buffer and `start` are untouched, the cursor and line only grow, tokens
and errors are only appended, and no appended token is EOF. -/
def StepShape (s r : Scanner) : Prop :=
  r.source = s.source ∧ r.start = s.start ∧ s.current ≤ r.current ∧
  s.line ≤ r.line ∧
  (∃ ts, r.tokens = s.tokens ++ ts ∧ ∀ t ∈ ts, t.token_type ≠ TokenType.Eof) ∧
  (∃ es, r.errors = s.errors ++ es)

theorem shape_refl (s : Scanner) : StepShape s s :=
  ⟨rfl, rfl, Nat.le_refl _, Nat.le_refl _,
   ⟨[], by simp, by simp⟩, ⟨[], by simp⟩⟩

theorem shape_trans {a b c : Scanner} (h1 : StepShape a b)
    (h2 : StepShape b c) : StepShape a c := by
  obtain ⟨e1, f1, g1, i1, ⟨ts1, j1, k1⟩, ⟨es1, l1⟩⟩ := h1
  obtain ⟨e2, f2, g2, i2, ⟨ts2, j2, k2⟩, ⟨es2, l2⟩⟩ := h2
  refine ⟨e2.trans e1, f2.trans f1, Nat.le_trans g1 g2, Nat.le_trans i1 i2,
    ⟨ts1 ++ ts2, ?_, ?_⟩, ⟨es1 ++ es2, ?_⟩⟩
  · rw [j2, j1, List.append_assoc]
  · intro t ht
    rcases List.mem_append.mp ht with h | h
    · exact k1 t h
    · exact k2 t h
  · rw [l2, l1, List.append_assoc]

theorem shape_of_keeps {s t : Scanner} (h : Keeps s t) : StepShape s t :=
  ⟨h.1, h.2.2.2.1, h.2.2.2.2.2, Nat.le_of_eq h.2.2.2.2.1.symm,
   ⟨[], by simp [h.2.1], by simp⟩, ⟨[], by simp [h.2.2.1]⟩⟩

theorem keeps_match_char (e : Nat) (s : Scanner) :
    Keeps s (match_char e s).2 := by
  rw [match_char_snd]
  split
  · exact keeps_bump s
  · exact ⟨rfl, rfl, rfl, rfl, rfl, Nat.le_refl _⟩

theorem shape_add_token {tt : TokenType} (h : tt ≠ TokenType.Eof)
    (s : Scanner) : StepShape s (add_token tt s) := by
  rw [add_token_eq]
  refine ⟨rfl, rfl, Nat.le_refl _, Nat.le_refl _,
    ⟨[⟨tt, sliceBytes s.source s.start s.current, none, s.line⟩], rfl, ?_⟩,
    ⟨[], by simp⟩⟩
  intro t ht
  rw [List.mem_singleton.mp ht]
  exact h

theorem shape_err (s : Scanner) (x : Nat × List Char) :
    StepShape s { s with errors := s.errors ++ [x] } :=
  ⟨rfl, rfl, Nat.le_refl _, Nat.le_refl _,
   ⟨[], by simp, by simp⟩, ⟨[x], rfl⟩⟩

theorem shape_newline (s : Scanner) :
    StepShape s { s with line := s.line + 1 } :=
  ⟨rfl, rfl, Nat.le_refl _, Nat.le_succ _,
   ⟨[], by simp, by simp⟩, ⟨[], by simp⟩⟩

theorem shape_string (fuel : Nat) (s : Scanner) :
    StepShape s (string fuel s) := by
  have hc := string_fields_common fuel s
  have hf := stringLoop_fields fuel s
  by_cases h : is_at_end (stringLoop fuel s) = true
  · have hu := string_fields_unterminated fuel s h
    refine ⟨hc.1, hc.2.1, ?_, ?_, ⟨[], by simp [hu.1], by simp⟩,
      ⟨[((stringLoop fuel s).line, unterminatedStringMsg)], hu.2.1⟩⟩
    · rw [hu.2.2]; exact hf.2.2.2.2.2
    · rw [hc.2.2]; exact hf.2.2.2.2.1
  · have ht := string_fields_terminated fuel s (Bool.eq_false_iff.mpr h)
    refine ⟨hc.1, hc.2.1, ?_, ?_,
      ⟨[⟨TokenType.String,
          sliceBytes s.source (s.start + 1) (stringLoop fuel s).current,
          some (sliceBytes s.source (s.start + 1) (stringLoop fuel s).current),
          (stringLoop fuel s).line⟩], ht.1, ?_⟩,
      ⟨[], by simp [ht.2.1]⟩⟩
    · rw [ht.2.2]
      exact Nat.le_trans hf.2.2.2.2.2 (Nat.le_succ _)
    · rw [hc.2.2]; exact hf.2.2.2.2.1
    · intro t htm
      rw [List.mem_singleton.mp htm]
      exact fun hx => TokenType.noConfusion hx

theorem shape_number (fuel : Nat) (s : Scanner) :
    StepShape s (number fuel s) := by
  have h := number_fields fuel s
  refine ⟨h.1, h.2.2.1, h.2.2.2.2.1, Nat.le_of_eq h.2.2.2.1.symm,
    ⟨[⟨TokenType.Number,
        sliceBytes s.source s.start (number fuel s).current,
        some (sliceBytes s.source s.start (number fuel s).current),
        s.line⟩], h.2.2.2.2.2, ?_⟩, ⟨[], by simp [h.2.1]⟩⟩
  intro t htm
  rw [List.mem_singleton.mp htm]
  exact fun hx => TokenType.noConfusion hx

theorem shape_identifier (fuel : Nat) (s : Scanner) :
    StepShape s (identifier fuel s) := by
  have h := identifier_fields fuel s
  refine ⟨h.1, h.2.2.1, h.2.2.2.2.1, Nat.le_of_eq h.2.2.2.1.symm,
    ⟨[⟨keywordType (sliceBytes s.source s.start (identifier fuel s).current),
        sliceBytes s.source s.start (identifier fuel s).current,
        none, s.line⟩], h.2.2.2.2.2, ?_⟩, ⟨[], by simp [h.2.1]⟩⟩
  intro t htm
  rw [List.mem_singleton.mp htm]
  exact keywordType_ne_eof _

set_option maxHeartbeats 1000000 in
theorem scan_token_shape (s : Scanner) :
    StepShape { s with current := s.current + 1 } (scan_token s) := by
  unfold scan_token advance
  dsimp only
  generalize hS : { s with current := s.current + 1 } = s1
  generalize s.source.getD s.current 0 = c
  by_cases h1 : c = 40
  · rw [if_pos h1]
    exact shape_add_token (by decide) _
  rw [if_neg h1]
  by_cases h2 : c = 41
  · rw [if_pos h2]
    exact shape_add_token (by decide) _
  rw [if_neg h2]
  by_cases h3 : c = 123
  · rw [if_pos h3]
    exact shape_add_token (by decide) _
  rw [if_neg h3]
  by_cases h4 : c = 125
  · rw [if_pos h4]
    exact shape_add_token (by decide) _
  rw [if_neg h4]
  by_cases h5 : c = 44
  · rw [if_pos h5]
    exact shape_add_token (by decide) _
  rw [if_neg h5]
  by_cases h6 : c = 46
  · rw [if_pos h6]
    exact shape_add_token (by decide) _
  rw [if_neg h6]
  by_cases h7 : c = 45
  · rw [if_pos h7]
    exact shape_add_token (by decide) _
  rw [if_neg h7]
  by_cases h8 : c = 43
  · rw [if_pos h8]
    exact shape_add_token (by decide) _
  rw [if_neg h8]
  by_cases h9 : c = 59
  · rw [if_pos h9]
    exact shape_add_token (by decide) _
  rw [if_neg h9]
  by_cases h10 : c = 42
  · rw [if_pos h10]
    exact shape_add_token (by decide) _
  rw [if_neg h10]
  by_cases h11 : c = 33
  · rw [if_pos h11]
    by_cases hm : (match_char 61 s1).1 = true
    · rw [if_pos hm]
      exact shape_trans (shape_of_keeps (keeps_match_char _ _)) (shape_add_token (by decide) _)
    · rw [if_neg hm]
      exact shape_trans (shape_of_keeps (keeps_match_char _ _)) (shape_add_token (by decide) _)
  rw [if_neg h11]
  by_cases h12 : c = 61
  · rw [if_pos h12]
    by_cases hm : (match_char 61 s1).1 = true
    · rw [if_pos hm]
      exact shape_trans (shape_of_keeps (keeps_match_char _ _)) (shape_add_token (by decide) _)
    · rw [if_neg hm]
      exact shape_trans (shape_of_keeps (keeps_match_char _ _)) (shape_add_token (by decide) _)
  rw [if_neg h12]
  by_cases h13 : c = 60
  · rw [if_pos h13]
    by_cases hm : (match_char 61 s1).1 = true
    · rw [if_pos hm]
      exact shape_trans (shape_of_keeps (keeps_match_char _ _)) (shape_add_token (by decide) _)
    · rw [if_neg hm]
      exact shape_trans (shape_of_keeps (keeps_match_char _ _)) (shape_add_token (by decide) _)
  rw [if_neg h13]
  by_cases h14 : c = 62
  · rw [if_pos h14]
    by_cases hm : (match_char 61 s1).1 = true
    · rw [if_pos hm]
      exact shape_trans (shape_of_keeps (keeps_match_char _ _)) (shape_add_token (by decide) _)
    · rw [if_neg hm]
      exact shape_trans (shape_of_keeps (keeps_match_char _ _)) (shape_add_token (by decide) _)
  rw [if_neg h14]
  by_cases h15 : c = 47
  · rw [if_pos h15]
    by_cases hm : (match_char 47 s1).1 = true
    · rw [if_pos hm]
      exact shape_trans (shape_of_keeps (keeps_match_char _ _)) (shape_of_keeps (commentLoop_keeps _ _))
    · rw [if_neg hm]
      exact shape_trans (shape_of_keeps (keeps_match_char _ _)) (shape_add_token (by decide) _)
  rw [if_neg h15]
  by_cases h16 : c = 32
  · rw [if_pos h16]
    exact shape_refl _
  rw [if_neg h16]
  by_cases h17 : c = 13
  · rw [if_pos h17]
    exact shape_refl _
  rw [if_neg h17]
  by_cases h18 : c = 9
  · rw [if_pos h18]
    exact shape_refl _
  rw [if_neg h18]
  by_cases h19 : c = 10
  · rw [if_pos h19, ← hS]
    exact shape_newline _
  rw [if_neg h19]
  by_cases h20 : c = 34
  · rw [if_pos h20]
    exact shape_string _ _
  rw [if_neg h20]
  by_cases h21 : isAsciiDigit c = true
  · rw [if_pos h21]
    exact shape_number _ _
  rw [if_neg h21]
  by_cases h22 : (isAsciiAlpha c || c == 95) = true
  · rw [if_pos h22]
    exact shape_identifier _ _
  rw [if_neg h22, ← hS]
  exact shape_err _ _

/-- The step shape transported to the state before the byte was consumed:
in particular the cursor strictly advances, so every scan terminates. -/
theorem scan_token_progress (s : Scanner) :
    StepShape s (scan_token s) ∧ s.current < (scan_token s).current := by
  have h := scan_token_shape s
  have hb : StepShape s { s with current := s.current + 1 } :=
    shape_of_keeps (keeps_bump s)
  exact ⟨shape_trans hb h, h.2.2.1⟩

/-! ### The top-level loop -/

theorem scanLoop_facts (fuel : Nat) : ∀ s : Scanner,
    (scanLoop fuel s).source = s.source ∧
    s.current ≤ (scanLoop fuel s).current ∧
    s.line ≤ (scanLoop fuel s).line ∧
    (∃ ts, (scanLoop fuel s).tokens = s.tokens ++ ts ∧
      ∀ t ∈ ts, t.token_type ≠ TokenType.Eof) ∧
    (∃ es, (scanLoop fuel s).errors = s.errors ++ es) := by
  induction fuel with
  | zero =>
    intro s
    exact ⟨rfl, Nat.le_refl _, Nat.le_refl _,
      ⟨[], by simp [scanLoop], by simp⟩, ⟨[], by simp [scanLoop]⟩⟩
  | succ n ih =>
    intro s
    rw [scanLoop]
    split
    · have h1 := (scan_token_progress { s with start := s.current }).1
      have h2 := ih (scan_token { s with start := s.current })
      obtain ⟨e1, _, g1, i1, ⟨ts1, j1, k1⟩, ⟨es1, l1⟩⟩ := h1
      obtain ⟨e2, g2, i2, ⟨ts2, j2, k2⟩, ⟨es2, l2⟩⟩ := h2
      refine ⟨e2.trans e1, Nat.le_trans g1 g2, Nat.le_trans i1 i2,
        ⟨ts1 ++ ts2, ?_, ?_⟩, ⟨es1 ++ es2, ?_⟩⟩
      · rw [j2, j1, List.append_assoc]
      · intro t htm
        rcases List.mem_append.mp htm with hm | hm
        · exact k1 t hm
        · exact k2 t hm
      · rw [l2, l1, List.append_assoc]
    · exact ⟨rfl, Nat.le_refl _, Nat.le_refl _,
        ⟨[], by simp, by simp⟩, ⟨[], by simp⟩⟩

/-! ### Branch equations of `scan_token` -/

theorem scan_token_newline (s : Scanner)
    (h : s.source.getD s.current 0 = 10) :
    scan_token s = { s with current := s.current + 1, line := s.line + 1 } := by
  unfold scan_token advance
  dsimp only
  rw [h]
  norm_num

/-- The bytes on which `scan_token` starts some lexeme, comment or
whitespace skip, i.e. everything except the error arm of the dispatch. -/
def startsLexeme (c : Nat) : Bool :=
  (c ∈ [40, 41, 123, 125, 44, 46, 45, 43, 59, 42, 33, 61, 60, 62, 47,
        32, 13, 9, 10, 34]) ||
  isAsciiDigit c || isAsciiAlpha c || c == 95

theorem scan_token_unexpected (s : Scanner) {c : Nat}
    (h : s.source.getD s.current 0 = c) (hno : startsLexeme c = false) :
    scan_token s = { s with
                     current := s.current + 1,
                     errors := s.errors ++ [(s.line, unexpectedCharMsg c)] } := by
  have h40 : ¬ c = 40 := fun hx => absurd (hx ▸ hno) (by decide)
  have h41 : ¬ c = 41 := fun hx => absurd (hx ▸ hno) (by decide)
  have h123 : ¬ c = 123 := fun hx => absurd (hx ▸ hno) (by decide)
  have h125 : ¬ c = 125 := fun hx => absurd (hx ▸ hno) (by decide)
  have h44 : ¬ c = 44 := fun hx => absurd (hx ▸ hno) (by decide)
  have h46 : ¬ c = 46 := fun hx => absurd (hx ▸ hno) (by decide)
  have h45 : ¬ c = 45 := fun hx => absurd (hx ▸ hno) (by decide)
  have h43 : ¬ c = 43 := fun hx => absurd (hx ▸ hno) (by decide)
  have h59 : ¬ c = 59 := fun hx => absurd (hx ▸ hno) (by decide)
  have h42 : ¬ c = 42 := fun hx => absurd (hx ▸ hno) (by decide)
  have h33 : ¬ c = 33 := fun hx => absurd (hx ▸ hno) (by decide)
  have h61 : ¬ c = 61 := fun hx => absurd (hx ▸ hno) (by decide)
  have h60 : ¬ c = 60 := fun hx => absurd (hx ▸ hno) (by decide)
  have h62 : ¬ c = 62 := fun hx => absurd (hx ▸ hno) (by decide)
  have h47 : ¬ c = 47 := fun hx => absurd (hx ▸ hno) (by decide)
  have h32 : ¬ c = 32 := fun hx => absurd (hx ▸ hno) (by decide)
  have h13 : ¬ c = 13 := fun hx => absurd (hx ▸ hno) (by decide)
  have h9 : ¬ c = 9 := fun hx => absurd (hx ▸ hno) (by decide)
  have h10 : ¬ c = 10 := fun hx => absurd (hx ▸ hno) (by decide)
  have h34 : ¬ c = 34 := fun hx => absurd (hx ▸ hno) (by decide)
  have hdig : ¬ (isAsciiDigit c = true) := fun hx => by
    simp [startsLexeme, hx] at hno
  have halpha : ¬ ((isAsciiAlpha c || c == 95) = true) := fun hx => by
    rcases (by simpa using hx : isAsciiAlpha c = true ∨ c = 95) with ha | h95
    · simp [startsLexeme, ha] at hno
    · subst h95
      exact absurd hno (by decide)
  unfold scan_token advance
  dsimp only
  rw [h]
  rw [if_neg h40, if_neg h41, if_neg h123, if_neg h125, if_neg h44,
    if_neg h46, if_neg h45, if_neg h43, if_neg h59, if_neg h42,
    if_neg h33, if_neg h61, if_neg h60, if_neg h62, if_neg h47,
    if_neg h32, if_neg h13, if_neg h9, if_neg h10, if_neg h34,
    if_neg hdig, if_neg halpha]

/-- The four one-or-two-character operator bytes `!` `=` `<` `>` with their
one-character and two-character token types. -/
def opTable : List (Nat × TokenType × TokenType) :=
  [(33, .Bang, .BangEqual), (61, .Equal, .EqualEqual),
   (60, .Less, .LessEqual), (62, .Greater, .GreaterEqual)]

theorem scan_token_op (s : Scanner) {c : Nat} {t1 t2 : TokenType}
    (hop : (c, t1, t2) ∈ opTable)
    (h : s.source.getD s.current 0 = c) :
    (s.source.getD (s.current + 1) 0 = 61 →
       scan_token s = { s with
                        current := s.current + 2,
                        tokens := s.tokens ++
                          [⟨t2, sliceBytes s.source s.start (s.current + 2),
                            none, s.line⟩] }) ∧
    (s.source.getD (s.current + 1) 0 ≠ 61 →
       scan_token s = { s with
                        current := s.current + 1,
                        tokens := s.tokens ++
                          [⟨t1, sliceBytes s.source s.start (s.current + 1),
                            none, s.line⟩] }) := by
  fin_cases hop <;>
  · unfold scan_token advance
    dsimp only
    rw [h]
    norm_num
    constructor
    · intro hnext
      have hnext' : s.source.getD (s.current + 1) 0 = 61 := by simpa using hnext
      have hm : (match_char 61 { s with current := s.current + 1 }).1 = true :=
        (@match_char_true_iff 61 (by decide)
          ({ s with current := s.current + 1 })).mpr hnext'
      rw [if_pos hm, match_char_snd, if_pos hm]
      exact rfl
    · intro hnext
      have hm : ¬ ((match_char 61 { s with current := s.current + 1 }).1 = true) :=
        fun hx => hnext (by
          simpa using ((@match_char_true_iff 61 (by decide)
            ({ s with current := s.current + 1 })).mp hx))
      rw [if_neg hm, match_char_snd, if_neg hm]
      exact rfl

/-- One step of the string-body loop on a newline byte bumps the line
counter by exactly one and consumes the byte. -/
theorem stringLoop_newline_step (fuel : Nat) (s : Scanner) (h : peek s = 10) :
    stringLoop (fuel + 1) s =
      stringLoop fuel { s with line := s.line + 1, current := s.current + 1 } := by
  have hend : ¬ (is_at_end s = true) := by
    intro he
    rw [peek, if_pos he] at h
    exact absurd h.symm (by decide)
  have hg : (peek s != 34 && !(is_at_end s)) = true := by
    rw [h, Bool.eq_false_iff.mpr hend]
    decide
  rw [stringLoop, if_pos hg, if_pos h]

/-! ### Line bookkeeping of one dispatch step -/

theorem digitsLoop_progress (fuel : Nat) (s : Scanner)
    (hf : 0 < fuel) (hd : isAsciiDigit (peek s) = true) :
    s.current + 1 ≤ (digitsLoop fuel s).current := by
  cases fuel with
  | zero => omega
  | succ n =>
    rw [digitsLoop, if_pos hd]
    exact (digitsLoop_fields n { s with current := s.current + 1 }).2.2.2.2.2

set_option maxHeartbeats 1000000 in
theorem scan_token_line_preserved (s : Scanner)
    (hn10 : s.source.getD s.current 0 ≠ 10)
    (hn34 : s.source.getD s.current 0 ≠ 34) :
    (scan_token s).line = s.line := by
  unfold scan_token advance
  dsimp only
  by_cases h1 : s.source.getD s.current 0 = 40
  · rw [if_pos h1]
    exact rfl
  rw [if_neg h1]
  by_cases h2 : s.source.getD s.current 0 = 41
  · rw [if_pos h2]
    exact rfl
  rw [if_neg h2]
  by_cases h3 : s.source.getD s.current 0 = 123
  · rw [if_pos h3]
    exact rfl
  rw [if_neg h3]
  by_cases h4 : s.source.getD s.current 0 = 125
  · rw [if_pos h4]
    exact rfl
  rw [if_neg h4]
  by_cases h5 : s.source.getD s.current 0 = 44
  · rw [if_pos h5]
    exact rfl
  rw [if_neg h5]
  by_cases h6 : s.source.getD s.current 0 = 46
  · rw [if_pos h6]
    exact rfl
  rw [if_neg h6]
  by_cases h7 : s.source.getD s.current 0 = 45
  · rw [if_pos h7]
    exact rfl
  rw [if_neg h7]
  by_cases h8 : s.source.getD s.current 0 = 43
  · rw [if_pos h8]
    exact rfl
  rw [if_neg h8]
  by_cases h9 : s.source.getD s.current 0 = 59
  · rw [if_pos h9]
    exact rfl
  rw [if_neg h9]
  by_cases h10 : s.source.getD s.current 0 = 42
  · rw [if_pos h10]
    exact rfl
  rw [if_neg h10]
  by_cases h11 : s.source.getD s.current 0 = 33
  · rw [if_pos h11]
    exact (keeps_match_char 61 _).2.2.2.2.1
  rw [if_neg h11]
  by_cases h12 : s.source.getD s.current 0 = 61
  · rw [if_pos h12]
    exact (keeps_match_char 61 _).2.2.2.2.1
  rw [if_neg h12]
  by_cases h13 : s.source.getD s.current 0 = 60
  · rw [if_pos h13]
    exact (keeps_match_char 61 _).2.2.2.2.1
  rw [if_neg h13]
  by_cases h14 : s.source.getD s.current 0 = 62
  · rw [if_pos h14]
    exact (keeps_match_char 61 _).2.2.2.2.1
  rw [if_neg h14]
  by_cases h15 : s.source.getD s.current 0 = 47
  · rw [if_pos h15]
    by_cases hm : (match_char 47 { s with current := s.current + 1 }).1 = true
    · rw [if_pos hm]
      exact ((commentLoop_keeps _ _).2.2.2.2.1).trans ((keeps_match_char 47 _).2.2.2.2.1)
    · rw [if_neg hm]
      exact (keeps_match_char 47 _).2.2.2.2.1
  rw [if_neg h15]
  by_cases h16 : s.source.getD s.current 0 = 32
  · rw [if_pos h16]
  rw [if_neg h16]
  by_cases h17 : s.source.getD s.current 0 = 13
  · rw [if_pos h17]
  rw [if_neg h17]
  by_cases h18 : s.source.getD s.current 0 = 9
  · rw [if_pos h18]
  rw [if_neg h18]
  by_cases h19 : s.source.getD s.current 0 = 10
  · exact absurd h19 hn10
  rw [if_neg h19]
  by_cases h20 : s.source.getD s.current 0 = 34
  · exact absurd h20 hn34
  rw [if_neg h20]
  by_cases h21 : isAsciiDigit (s.source.getD s.current 0) = true
  · rw [if_pos h21]
    exact (number_fields _ _).2.2.2.1
  rw [if_neg h21]
  by_cases h22 : (isAsciiAlpha (s.source.getD s.current 0) || s.source.getD s.current 0 == 95) = true
  · rw [if_pos h22]
    exact (identifier_fields _ _).2.2.2.1
  rw [if_neg h22]

theorem emitted_lines_add_token {s0 x : Scanner} {tt : TokenType}
    (htok : x.tokens = s0.tokens) :
    ∃ ts, (add_token tt x).tokens = s0.tokens ++ ts ∧
      ∀ t ∈ ts, t.line = (add_token tt x).line := by
  rw [add_token_eq]
  refine ⟨[⟨tt, sliceBytes x.source x.start x.current, none, x.line⟩],
    by rw [htok], ?_⟩
  intro t ht
  rw [List.mem_singleton.mp ht]

set_option maxHeartbeats 1000000 in
theorem scan_token_emitted_lines (s : Scanner) :
    ∃ ts, (scan_token s).tokens = s.tokens ++ ts ∧
      ∀ t ∈ ts, t.line = (scan_token s).line := by
  unfold scan_token advance
  dsimp only
  by_cases h1 : s.source.getD s.current 0 = 40
  · rw [if_pos h1]
    exact emitted_lines_add_token rfl
  rw [if_neg h1]
  by_cases h2 : s.source.getD s.current 0 = 41
  · rw [if_pos h2]
    exact emitted_lines_add_token rfl
  rw [if_neg h2]
  by_cases h3 : s.source.getD s.current 0 = 123
  · rw [if_pos h3]
    exact emitted_lines_add_token rfl
  rw [if_neg h3]
  by_cases h4 : s.source.getD s.current 0 = 125
  · rw [if_pos h4]
    exact emitted_lines_add_token rfl
  rw [if_neg h4]
  by_cases h5 : s.source.getD s.current 0 = 44
  · rw [if_pos h5]
    exact emitted_lines_add_token rfl
  rw [if_neg h5]
  by_cases h6 : s.source.getD s.current 0 = 46
  · rw [if_pos h6]
    exact emitted_lines_add_token rfl
  rw [if_neg h6]
  by_cases h7 : s.source.getD s.current 0 = 45
  · rw [if_pos h7]
    exact emitted_lines_add_token rfl
  rw [if_neg h7]
  by_cases h8 : s.source.getD s.current 0 = 43
  · rw [if_pos h8]
    exact emitted_lines_add_token rfl
  rw [if_neg h8]
  by_cases h9 : s.source.getD s.current 0 = 59
  · rw [if_pos h9]
    exact emitted_lines_add_token rfl
  rw [if_neg h9]
  by_cases h10 : s.source.getD s.current 0 = 42
  · rw [if_pos h10]
    exact emitted_lines_add_token rfl
  rw [if_neg h10]
  by_cases h11 : s.source.getD s.current 0 = 33
  · rw [if_pos h11]
    by_cases hm : (match_char 61 { s with current := s.current + 1 }).1 = true
    · rw [if_pos hm]
      exact emitted_lines_add_token (keeps_match_char 61 _).2.1
    · rw [if_neg hm]
      exact emitted_lines_add_token (keeps_match_char 61 _).2.1
  rw [if_neg h11]
  by_cases h12 : s.source.getD s.current 0 = 61
  · rw [if_pos h12]
    by_cases hm : (match_char 61 { s with current := s.current + 1 }).1 = true
    · rw [if_pos hm]
      exact emitted_lines_add_token (keeps_match_char 61 _).2.1
    · rw [if_neg hm]
      exact emitted_lines_add_token (keeps_match_char 61 _).2.1
  rw [if_neg h12]
  by_cases h13 : s.source.getD s.current 0 = 60
  · rw [if_pos h13]
    by_cases hm : (match_char 61 { s with current := s.current + 1 }).1 = true
    · rw [if_pos hm]
      exact emitted_lines_add_token (keeps_match_char 61 _).2.1
    · rw [if_neg hm]
      exact emitted_lines_add_token (keeps_match_char 61 _).2.1
  rw [if_neg h13]
  by_cases h14 : s.source.getD s.current 0 = 62
  · rw [if_pos h14]
    by_cases hm : (match_char 61 { s with current := s.current + 1 }).1 = true
    · rw [if_pos hm]
      exact emitted_lines_add_token (keeps_match_char 61 _).2.1
    · rw [if_neg hm]
      exact emitted_lines_add_token (keeps_match_char 61 _).2.1
  rw [if_neg h14]
  by_cases h15 : s.source.getD s.current 0 = 47
  · rw [if_pos h15]
    by_cases hm : (match_char 47 { s with current := s.current + 1 }).1 = true
    · rw [if_pos hm]
      refine ⟨[], ?_, by simp⟩
      rw [(commentLoop_keeps _ _).2.1, (keeps_match_char 47 _).2.1]
      exact (List.append_nil _).symm
    · rw [if_neg hm]
      exact emitted_lines_add_token (keeps_match_char 47 _).2.1
  rw [if_neg h15]
  by_cases h16 : s.source.getD s.current 0 = 32
  · rw [if_pos h16]
    exact ⟨[], (List.append_nil _).symm, by simp⟩
  rw [if_neg h16]
  by_cases h17 : s.source.getD s.current 0 = 13
  · rw [if_pos h17]
    exact ⟨[], (List.append_nil _).symm, by simp⟩
  rw [if_neg h17]
  by_cases h18 : s.source.getD s.current 0 = 9
  · rw [if_pos h18]
    exact ⟨[], (List.append_nil _).symm, by simp⟩
  rw [if_neg h18]
  by_cases h19 : s.source.getD s.current 0 = 10
  · rw [if_pos h19]
    exact ⟨[], (List.append_nil _).symm, by simp⟩
  rw [if_neg h19]
  by_cases h20 : s.source.getD s.current 0 = 34
  · rw [if_pos h20]
    by_cases hend : is_at_end (stringLoop (s.source.length + 1) { s with current := s.current + 1 }) = true
    · refine ⟨[], ?_, by simp⟩
      rw [(string_fields_unterminated _ _ hend).1]
      exact (List.append_nil _).symm
    · have hst := string_fields_terminated (s.source.length + 1)
        { s with current := s.current + 1 } (Bool.eq_false_iff.mpr hend)
      have hsc := string_fields_common (s.source.length + 1)
        { s with current := s.current + 1 }
      refine ⟨_, hst.1, ?_⟩
      intro t htm
      rw [List.mem_singleton.mp htm]
      exact (hsc.2.2).symm
  rw [if_neg h20]
  by_cases h21 : isAsciiDigit (s.source.getD s.current 0) = true
  · rw [if_pos h21]
    have hn := number_fields (s.source.length + 1) { s with current := s.current + 1 }
    refine ⟨_, hn.2.2.2.2.2, ?_⟩
    intro t htm
    rw [List.mem_singleton.mp htm]
    exact (hn.2.2.2.1).symm
  rw [if_neg h21]
  by_cases h22 : (isAsciiAlpha (s.source.getD s.current 0) || s.source.getD s.current 0 == 95) = true
  · rw [if_pos h22]
    have hi := identifier_fields (s.source.length + 1) { s with current := s.current + 1 }
    refine ⟨_, hi.2.2.2.2.2, ?_⟩
    intro t htm
    rw [List.mem_singleton.mp htm]
    exact (hi.2.2.2.1).symm
  rw [if_neg h22]
  exact ⟨[], (List.append_nil _).symm, by simp⟩

/-! ### Maximal-munch characterisations -/

theorem identLoop_maximal (fuel : Nat) (s : Scanner)
    (hfuel : s.source.length ≤ s.current + fuel) :
    (∀ j, s.current ≤ j → j < (identLoop fuel s).current →
       (isAsciiAlnum (s.source.getD j 0) || s.source.getD j 0 == 95) = true) ∧
    (isAsciiAlnum (s.source.getD (identLoop fuel s).current 0) ||
       s.source.getD (identLoop fuel s).current 0 == 95) = false := by
  constructor
  · exact fun j h1 h2 => identLoop_consumed fuel s j h1 h2
  · have h := identLoop_stop fuel s hfuel
    rwa [peek_eq, (identLoop_fields fuel s).1] at h

theorem numberEndState_spec (fuel : Nat) (s : Scanner)
    (hfuel : s.source.length ≤ s.current + fuel) :
    s.current ≤ (digitsLoop fuel s).current ∧
    (∀ j, s.current ≤ j → j < (digitsLoop fuel s).current →
      isAsciiDigit (s.source.getD j 0) = true) ∧
    isAsciiDigit (s.source.getD (digitsLoop fuel s).current 0) = false ∧
    ((s.source.getD (digitsLoop fuel s).current 0 = 46 ∧
        isAsciiDigit (s.source.getD ((digitsLoop fuel s).current + 1) 0) = true) →
       ((digitsLoop fuel s).current + 1 < (numberEndState fuel s).current ∧
        (∀ j, (digitsLoop fuel s).current + 1 ≤ j →
          j < (numberEndState fuel s).current →
          isAsciiDigit (s.source.getD j 0) = true) ∧
        isAsciiDigit (s.source.getD (numberEndState fuel s).current 0) = false)) ∧
    (¬ (s.source.getD (digitsLoop fuel s).current 0 = 46 ∧
        isAsciiDigit (s.source.getD ((digitsLoop fuel s).current + 1) 0) = true) →
       (numberEndState fuel s).current = (digitsLoop fuel s).current) := by
  have hA := digitsLoop_fields fuel s
  have hstop := digitsLoop_stop fuel s hfuel
  rw [peek_eq, hA.1] at hstop
  have hcond : ((peek (digitsLoop fuel s) = 46 : Bool) &&
      isAsciiDigit (peek_next (digitsLoop fuel s))) = true ↔
      (s.source.getD (digitsLoop fuel s).current 0 = 46 ∧
       isAsciiDigit (s.source.getD ((digitsLoop fuel s).current + 1) 0) = true) := by
    rw [peek_eq, peek_next_eq, hA.1]
    simp [Bool.and_eq_true]
  refine ⟨hA.2.2.2.2.2, fun j h1 h2 => digitsLoop_consumed fuel s j h1 h2,
    hstop, ?_, ?_⟩
  · intro hc
    have hne : s.source.getD ((digitsLoop fuel s).current + 1) 0 ≠ 0 := by
      intro h0
      rw [h0] at hc
      exact absurd hc.2 (by decide)
    have hd1 : (digitsLoop fuel s).current + 1 < s.source.length :=
      lt_length_of_getD_ne hne
    unfold numberEndState
    dsimp only
    rw [if_pos (hcond.mpr hc)]
    have hB := digitsLoop_fields fuel
      { digitsLoop fuel s with current := (digitsLoop fuel s).current + 1 }
    refine ⟨?_, ?_, ?_⟩
    · refine Nat.lt_of_succ_le (digitsLoop_progress fuel
        { digitsLoop fuel s with current := (digitsLoop fuel s).current + 1 }
        (by have h1 := hA.2.2.2.2.2; omega) ?_)
      rw [peek_eq]
      dsimp only
      rw [hA.1]
      exact hc.2
    · intro j h1 h2
      have hx := digitsLoop_consumed fuel
        { digitsLoop fuel s with current := (digitsLoop fuel s).current + 1 }
        j h1 h2
      dsimp only at hx
      rwa [hA.1] at hx
    · have hs2 := digitsLoop_stop fuel
        { digitsLoop fuel s with current := (digitsLoop fuel s).current + 1 }
        (by
          dsimp only
          rw [hA.1]
          have h1 := hA.2.2.2.2.2
          omega)
      rw [peek_eq, hB.1] at hs2
      rw [← hA.1]
      exact hs2
  · intro hcn
    unfold numberEndState
    dsimp only
    rw [if_neg (fun hx => hcn (hcond.mp hx))]

/-! ### Keyword table facts -/

theorem keywords_lookup : ∀ p ∈ keywords, keywordType p.1 = p.2 := by decide

theorem keywords_extend_identifier :
    ∀ p ∈ keywords, ∀ c : Nat, (isAsciiAlnum c || c == 95) = true →
      keywordType (p.1 ++ [c]) = TokenType.Identifier := by
  intro p hp c _
  unfold keywordType
  cases hf : keywords.find? (fun q => q.1 = p.1 ++ [c]) with
  | none => rfl
  | some q =>
    exfalso
    have hq := List.mem_of_find?_eq_some hf
    have heq : q.1 = p.1 ++ [c] := by simpa using List.find?_some hf
    have hdl : ∀ q1 ∈ keywords, ∀ q2 ∈ keywords, q1.1.dropLast ≠ q2.1 := by
      decide
    have hql : q.1.dropLast = p.1 := by
      rw [heq]
      simp
    exact hdl q hq p hp hql

/-! ### Checked model: every read and slice is bounds- and boundary-checked

The functions below mirror the scanner exactly, but return `none` where the
Rust code would panic: an out-of-bounds index in `advance`, or a byte-range
slice of the source that is out of range or not on character boundaries.
Proving the checked scanner equal to `some` of the plain scanner shows the
Rust code never panics. -/

/-- Rust `str::is_char_boundary` over the byte buffer. -/
def isCharBoundary (src : List Nat) (i : Nat) : Bool :=
  if i = 0 then true
  else if i < src.length then
    !(128 ≤ src.getD i 0 && src.getD i 0 < 192)
  else i == src.length

/-- Checked byte-range slice `&source[a..b]`: `none` exactly when Rust
would panic. -/
def sliceC (src : List Nat) (a b : Nat) : Option (List Nat) :=
  if a ≤ b ∧ b ≤ src.length ∧
     isCharBoundary src a = true ∧ isCharBoundary src b = true
  then some (sliceBytes src a b) else none

/-- Checked `advance`: `none` exactly when the Rust index would panic. -/
def advanceC (s : Scanner) : Option (Nat × Scanner) :=
  if s.current < s.source.length then
    some (s.source.getD s.current 0, { s with current := s.current + 1 })
  else none

def stringLoopC : Nat → Scanner → Option Scanner
  | 0, s => some s
  | fuel + 1, s =>
    if peek s != 34 && !(is_at_end s) then
      match advanceC { s with
        line := if peek s = 10 then s.line + 1 else s.line } with
      | some (_, s') => stringLoopC fuel s'
      | none => none
    else some s

def digitsLoopC : Nat → Scanner → Option Scanner
  | 0, s => some s
  | fuel + 1, s =>
    if isAsciiDigit (peek s) then
      match advanceC s with
      | some (_, s') => digitsLoopC fuel s'
      | none => none
    else some s

def identLoopC : Nat → Scanner → Option Scanner
  | 0, s => some s
  | fuel + 1, s =>
    if isAsciiAlnum (peek s) || peek s == 95 then
      match advanceC s with
      | some (_, s') => identLoopC fuel s'
      | none => none
    else some s

def commentLoopC : Nat → Scanner → Option Scanner
  | 0, s => some s
  | fuel + 1, s =>
    if peek s != 10 && !(is_at_end s) then
      match advanceC s with
      | some (_, s') => commentLoopC fuel s'
      | none => none
    else some s

def add_tokenC (tt : TokenType) (s : Scanner) : Option Scanner :=
  match sliceC s.source s.start s.current with
  | some text =>
    some { s with tokens := s.tokens ++ [⟨tt, text, none, s.line⟩] }
  | none => none

def stringC (fuel : Nat) (s : Scanner) : Option Scanner :=
  match stringLoopC fuel s with
  | none => none
  | some t =>
    if is_at_end t then
      some { t with errors := t.errors ++ [(t.line, unterminatedStringMsg)] }
    else
      match advanceC t with
      | none => none
      | some (_, t') =>
        match sliceC t'.source (t'.start + 1) (t'.current - 1) with
        | none => none
        | some value =>
          some { t' with tokens := t'.tokens ++
            [⟨TokenType.String, value, some value, t'.line⟩] }

def numberEndStateC (fuel : Nat) (s : Scanner) : Option Scanner :=
  match digitsLoopC fuel s with
  | none => none
  | some t =>
    if peek t = 46 && isAsciiDigit (peek_next t) then
      match advanceC t with
      | none => none
      | some (_, t1) => digitsLoopC fuel t1
    else some t

def numberC (fuel : Nat) (s : Scanner) : Option Scanner :=
  match numberEndStateC fuel s with
  | none => none
  | some t2 =>
    match sliceC t2.source t2.start t2.current with
    | none => none
    | some value =>
      some { t2 with tokens := t2.tokens ++
        [⟨TokenType.Number, value, some value, t2.line⟩] }

def identifierC (fuel : Nat) (s : Scanner) : Option Scanner :=
  match identLoopC fuel s with
  | none => none
  | some t =>
    match sliceC t.source t.start t.current with
    | none => none
    | some text =>
      some { t with tokens := t.tokens ++ [⟨keywordType text, text, none, t.line⟩] }

def scan_tokenC (s : Scanner) : Option Scanner :=
  let fuel := s.source.length + 1
  match advanceC s with
  | none => none
  | some (c, s1) =>
    if c = 40 then add_tokenC .LeftParen s1
    else if c = 41 then add_tokenC .RightParen s1
    else if c = 123 then add_tokenC .LeftBrace s1
    else if c = 125 then add_tokenC .RightBrace s1
    else if c = 44 then add_tokenC .Comma s1
    else if c = 46 then add_tokenC .Dot s1
    else if c = 45 then add_tokenC .Minus s1
    else if c = 43 then add_tokenC .Plus s1
    else if c = 59 then add_tokenC .Semicolon s1
    else if c = 42 then add_tokenC .Star s1
    else if c = 33 then
      let q := match_char 61 s1
      add_tokenC (if q.1 then .BangEqual else .Bang) q.2
    else if c = 61 then
      let q := match_char 61 s1
      add_tokenC (if q.1 then .EqualEqual else .Equal) q.2
    else if c = 60 then
      let q := match_char 61 s1
      add_tokenC (if q.1 then .LessEqual else .Less) q.2
    else if c = 62 then
      let q := match_char 61 s1
      add_tokenC (if q.1 then .GreaterEqual else .Greater) q.2
    else if c = 47 then
      let q := match_char 47 s1
      if q.1 then commentLoopC fuel q.2 else add_tokenC .Slash q.2
    else if c = 32 then some s1
    else if c = 13 then some s1
    else if c = 9 then some s1
    else if c = 10 then some { s1 with line := s1.line + 1 }
    else if c = 34 then stringC fuel s1
    else if isAsciiDigit c then numberC fuel s1
    else if isAsciiAlpha c || c == 95 then identifierC fuel s1
    else some { s1 with errors := s1.errors ++ [(s1.line, unexpectedCharMsg c)] }

def scanLoopC : Nat → Scanner → Option Scanner
  | 0, s => some s
  | fuel + 1, s =>
    if !(is_at_end s) then
      match scan_tokenC { s with start := s.current } with
      | none => none
      | some s' => scanLoopC fuel s'
    else some s

def scan_tokensC (src : List Nat) : Option Scanner :=
  match scanLoopC (src.length + 1) (new src) with
  | none => none
  | some s1 =>
    some { s1 with tokens := s1.tokens ++ [⟨TokenType.Eof, [], none, s1.line⟩] }

/-- The property of every valid UTF-8 byte sequence that the checked
scanner needs: a continuation byte (`10xxxxxx`) is never preceded by an
ASCII byte (it always follows a lead or continuation byte, all `≥ 0x80`). -/
def ValidUtf8Tail (src : List Nat) : Prop :=
  ∀ i, i < src.length → 128 ≤ src.getD i 0 → src.getD i 0 < 192 →
    0 < i ∧ 128 ≤ src.getD (i - 1) 0

/-! ### The checked loops never fail -/

theorem not_at_end_of_guard {s : Scanner} {b : Bool}
    (hg : (b && !(is_at_end s)) = true) : s.current < s.source.length := by
  have h2 : is_at_end s = false := by
    simp only [Bool.and_eq_true, Bool.not_eq_true'] at hg
    exact hg.2
  simp only [is_at_end, decide_eq_false_iff_not] at h2
  omega

theorem stringLoopC_eq (fuel : Nat) : ∀ s : Scanner,
    stringLoopC fuel s = some (stringLoop fuel s) := by
  induction fuel with
  | zero => intro s; rfl
  | succ n ih =>
    intro s
    rw [stringLoopC, stringLoop]
    split
    · next hg =>
      have hend : s.current < s.source.length := not_at_end_of_guard hg
      rw [advanceC, if_pos (by exact hend)]
      exact ih _
    · rfl

theorem digitsLoopC_eq (fuel : Nat) : ∀ s : Scanner,
    digitsLoopC fuel s = some (digitsLoop fuel s) := by
  induction fuel with
  | zero => intro s; rfl
  | succ n ih =>
    intro s
    rw [digitsLoopC, digitsLoop]
    split
    · next hg =>
      have hend : s.current < s.source.length := by
        rw [peek_eq] at hg
        have hne : s.source.getD s.current 0 ≠ 0 := by
          intro h0
          rw [h0] at hg
          exact absurd hg (by decide)
        exact lt_length_of_getD_ne hne
      rw [advanceC, if_pos hend]
      exact ih _
    · rfl

theorem identLoopC_eq (fuel : Nat) : ∀ s : Scanner,
    identLoopC fuel s = some (identLoop fuel s) := by
  induction fuel with
  | zero => intro s; rfl
  | succ n ih =>
    intro s
    rw [identLoopC, identLoop]
    split
    · next hg =>
      have hend : s.current < s.source.length := by
        rw [peek_eq] at hg
        have hne : s.source.getD s.current 0 ≠ 0 := by
          intro h0
          rw [h0] at hg
          exact absurd hg (by decide)
        exact lt_length_of_getD_ne hne
      rw [advanceC, if_pos hend]
      exact ih _
    · rfl

theorem commentLoopC_eq (fuel : Nat) : ∀ s : Scanner,
    commentLoopC fuel s = some (commentLoop fuel s) := by
  induction fuel with
  | zero => intro s; rfl
  | succ n ih =>
    intro s
    rw [commentLoopC, commentLoop]
    split
    · next hg =>
      have hend : s.current < s.source.length := not_at_end_of_guard hg
      rw [advanceC, if_pos hend]
      exact ih _
    · rfl

/-! ### The loops never move the cursor past the end -/

theorem stringLoop_le_len (fuel : Nat) : ∀ s : Scanner,
    s.current ≤ s.source.length →
    (stringLoop fuel s).current ≤ s.source.length := by
  induction fuel with
  | zero => intro s h; exact h
  | succ n ih =>
    intro s h
    rw [stringLoop]
    split
    · next hg =>
      have h2 := not_at_end_of_guard hg
      exact ih _ (by dsimp only; omega)
    · exact h

theorem digitsLoop_le_len (fuel : Nat) : ∀ s : Scanner,
    s.current ≤ s.source.length →
    (digitsLoop fuel s).current ≤ s.source.length := by
  induction fuel with
  | zero => intro s h; exact h
  | succ n ih =>
    intro s h
    rw [digitsLoop]
    split
    · next hg =>
      rw [peek_eq] at hg
      have hne : s.source.getD s.current 0 ≠ 0 := by
        intro h0
        rw [h0] at hg
        exact absurd hg (by decide)
      have := lt_length_of_getD_ne hne
      exact ih _ (by dsimp only; omega)
    · exact h

theorem identLoop_le_len (fuel : Nat) : ∀ s : Scanner,
    s.current ≤ s.source.length →
    (identLoop fuel s).current ≤ s.source.length := by
  induction fuel with
  | zero => intro s h; exact h
  | succ n ih =>
    intro s h
    rw [identLoop]
    split
    · next hg =>
      rw [peek_eq] at hg
      have hne : s.source.getD s.current 0 ≠ 0 := by
        intro h0
        rw [h0] at hg
        exact absurd hg (by decide)
      have := lt_length_of_getD_ne hne
      exact ih _ (by dsimp only; omega)
    · exact h

theorem commentLoop_le_len (fuel : Nat) : ∀ s : Scanner,
    s.current ≤ s.source.length →
    (commentLoop fuel s).current ≤ s.source.length := by
  induction fuel with
  | zero => intro s h; exact h
  | succ n ih =>
    intro s h
    rw [commentLoop]
    split
    · next hg =>
      have h2 := not_at_end_of_guard hg
      exact ih _ (by dsimp only; omega)
    · exact h

/-! ### Character-boundary facts -/

theorem boundary_of_byte_lt {src : List Nat} {i : Nat}
    (hle : i ≤ src.length) (hb : src.getD i 0 < 128) :
    isCharBoundary src i = true := by
  unfold isCharBoundary
  split
  · rfl
  · split
    · simp only [Bool.not_eq_true', Bool.and_eq_false_iff]
      left
      simp only [decide_eq_false_iff_not]
      omega
    · next h1 h2 => simp; omega

theorem boundary_of_prev {src : List Nat} {i : Nat} (hv : ValidUtf8Tail src)
    (hle : i ≤ src.length) (hprev : 0 < i → src.getD (i - 1) 0 < 128) :
    isCharBoundary src i = true := by
  unfold isCharBoundary
  split
  · rfl
  · next h0 =>
    split
    · next hlt =>
      simp only [Bool.not_eq_true', Bool.and_eq_false_iff]
      by_cases hc1 : 128 ≤ src.getD i 0
      · right
        simp only [decide_eq_false_iff_not]
        intro hc2
        have := (hv i hlt hc1 hc2).2
        have := hprev (Nat.pos_of_ne_zero h0)
        omega
      · left
        simp only [decide_eq_false_iff_not]
        exact hc1
    · simp; omega

theorem lt128_of_digit {c : Nat} (h : isAsciiDigit c = true) : c < 128 := by
  simp only [isAsciiDigit, Bool.and_eq_true, decide_eq_true_eq] at h
  omega

theorem lt128_of_alnum {c : Nat}
    (h : (isAsciiAlnum c || c == 95) = true) : c < 128 := by
  simp only [isAsciiAlnum, isAsciiDigit, isAsciiAlpha, Bool.or_eq_true,
    Bool.and_eq_true, decide_eq_true_eq, beq_iff_eq] at h
  omega

/-! ### The checked emitters never fail -/

theorem add_tokenC_eq (tt : TokenType) (s : Scanner)
    (hab : s.start ≤ s.current) (hbl : s.current ≤ s.source.length)
    (hb1 : isCharBoundary s.source s.start = true)
    (hb2 : isCharBoundary s.source s.current = true) :
    add_tokenC tt s = some (add_token tt s) := by
  unfold add_tokenC sliceC
  rw [if_pos ⟨hab, hbl, hb1, hb2⟩]
  rfl

theorem stringC_eq (fuel : Nat) (s : Scanner)
    (hv : ValidUtf8Tail s.source)
    (hq : s.source.getD s.start 0 = 34)
    (hsc : s.current = s.start + 1)
    (hfuel : s.source.length ≤ s.current + fuel) :
    stringC fuel s = some (string fuel s) := by
  have hf := stringLoop_fields fuel s
  have hstop := stringLoop_stop fuel s hfuel
  have hstartlt : s.start < s.source.length :=
    lt_length_of_getD_ne (by rw [hq]; decide)
  unfold stringC string
  rw [stringLoopC_eq]
  dsimp only
  by_cases hend : is_at_end (stringLoop fuel s) = true
  · rw [if_pos hend, if_pos hend]
  · have hpeek : peek (stringLoop fuel s) = 34 := by
      rcases hstop with h | h
      · exact absurd h hend
      · exact h
    have hlt : (stringLoop fuel s).current < s.source.length := by
      have : is_at_end (stringLoop fuel s) = false := Bool.eq_false_iff.mpr hend
      simp only [is_at_end, decide_eq_false_iff_not] at this
      rw [hf.1] at this
      omega
    rw [if_neg hend, if_neg hend, advanceC, if_pos (by rw [hf.1]; exact hlt)]
    dsimp only
    have hbyte : s.source.getD (stringLoop fuel s).current 0 = 34 := by
      rw [peek_eq, hf.1] at hpeek
      exact hpeek
    have hcond : (stringLoop fuel s).start + 1 ≤
        (stringLoop fuel s).current + 1 - 1 ∧
        (stringLoop fuel s).current + 1 - 1 ≤ (stringLoop fuel s).source.length ∧
        isCharBoundary (stringLoop fuel s).source
          ((stringLoop fuel s).start + 1) = true ∧
        isCharBoundary (stringLoop fuel s).source
          ((stringLoop fuel s).current + 1 - 1) = true := by
      rw [hf.1, hf.2.2.2.1]
      have hcur := hf.2.2.2.2.2
      refine ⟨by omega, by omega, ?_, ?_⟩
      · refine boundary_of_prev hv (by omega) ?_
        intro _
        simp only [Nat.add_sub_cancel]
        rw [hq]
        omega
      · simp only [Nat.add_sub_cancel]
        exact boundary_of_byte_lt (by omega) (by rw [hbyte]; omega)
    rw [sliceC, if_pos hcond]

theorem numberEndStateC_eq (fuel : Nat) (s : Scanner) :
    numberEndStateC fuel s = some (numberEndState fuel s) := by
  unfold numberEndStateC numberEndState
  rw [digitsLoopC_eq]
  dsimp only
  split
  · next hc =>
    have hne : (digitsLoop fuel s).source.getD (digitsLoop fuel s).current 0 ≠ 0 := by
      intro h0
      rw [peek_eq, h0] at hc
      simp at hc
    rw [advanceC, if_pos (lt_length_of_getD_ne hne)]
    dsimp only
    rw [digitsLoopC_eq]
  · rfl

theorem numberEndState_le_len (fuel : Nat) (s : Scanner)
    (h : s.current ≤ s.source.length) :
    (numberEndState fuel s).current ≤ s.source.length := by
  have hA := digitsLoop_fields fuel s
  unfold numberEndState
  dsimp only
  split
  · next hc =>
    have hne : (digitsLoop fuel s).source.getD (digitsLoop fuel s).current 0 ≠ 0 := by
      intro h0
      rw [peek_eq, h0] at hc
      simp at hc
    have hlt := lt_length_of_getD_ne hne
    have hx := digitsLoop_le_len fuel
      { digitsLoop fuel s with current := (digitsLoop fuel s).current + 1 }
      (by dsimp only; omega)
    dsimp only at hx
    rw [← hA.1]
    exact hx
  · exact digitsLoop_le_len fuel s h

theorem numberC_eq (fuel : Nat) (s : Scanner)
    (hv : ValidUtf8Tail s.source)
    (hd : isAsciiDigit (s.source.getD s.start 0) = true)
    (hsc : s.current = s.start + 1)
    (hfuel : s.source.length ≤ s.current + fuel) :
    numberC fuel s = some (number fuel s) := by
  have hk := numberEndState_keeps fuel s
  have hspec := numberEndState_spec fuel s hfuel
  have hA := digitsLoop_fields fuel s
  have hstartlt : s.start < s.source.length :=
    lt_length_of_getD_ne (by intro h0; rw [h0] at hd; exact absurd hd (by decide))
  have hlen : (numberEndState fuel s).current ≤ s.source.length :=
    numberEndState_le_len fuel s (by omega)
  have hall1 : ∀ k, s.start ≤ k → k < (digitsLoop fuel s).current →
      isAsciiDigit (s.source.getD k 0) = true := by
    intro k h1 h2
    rcases Nat.eq_or_lt_of_le h1 with heq | hlt
    · rw [← heq]; exact hd
    · exact hspec.2.1 k (by omega) h2
  have hprevdig : isAsciiDigit
      (s.source.getD ((numberEndState fuel s).current - 1) 0) = true := by
    by_cases hdot : s.source.getD (digitsLoop fuel s).current 0 = 46 ∧
        isAsciiDigit (s.source.getD ((digitsLoop fuel s).current + 1) 0) = true
    · have hthen := hspec.2.2.2.1 hdot
      exact hthen.2.1 _ (by omega) (by omega)
    · rw [hspec.2.2.2.2 hdot]
      have hdge : s.start + 1 ≤ (digitsLoop fuel s).current := by
        have := hspec.1
        omega
      exact hall1 _ (by omega) (by omega)
  unfold numberC number
  rw [numberEndStateC_eq]
  dsimp only
  have hcond : (numberEndState fuel s).start ≤ (numberEndState fuel s).current ∧
      (numberEndState fuel s).current ≤ (numberEndState fuel s).source.length ∧
      isCharBoundary (numberEndState fuel s).source
        ((numberEndState fuel s).start) = true ∧
      isCharBoundary (numberEndState fuel s).source
        ((numberEndState fuel s).current) = true := by
    rw [hk.1, hk.2.2.2.1]
    have hcur := hk.2.2.2.2.2
    refine ⟨by omega, hlen,
      boundary_of_byte_lt (by omega) (lt128_of_digit hd), ?_⟩
    refine boundary_of_prev hv hlen ?_
    intro _
    exact lt128_of_digit hprevdig
  rw [sliceC, if_pos hcond]

theorem identifierC_eq (fuel : Nat) (s : Scanner)
    (hv : ValidUtf8Tail s.source)
    (ha : (isAsciiAlpha (s.source.getD s.start 0) ||
           s.source.getD s.start 0 == 95) = true)
    (hsc : s.current = s.start + 1)
    (hfuel : s.source.length ≤ s.current + fuel) :
    identifierC fuel s = some (identifier fuel s) := by
  have hA := identLoop_fields fuel s
  have hmax := identLoop_maximal fuel s hfuel
  have ha' : (isAsciiAlnum (s.source.getD s.start 0) ||
      s.source.getD s.start 0 == 95) = true := by
    simp only [isAsciiAlnum, Bool.or_eq_true] at *
    tauto
  have hstartlt : s.start < s.source.length := by
    refine lt_length_of_getD_ne (fun h0 => ?_)
    rw [h0] at ha
    exact absurd ha (by decide)
  have hdlen : (identLoop fuel s).current ≤ s.source.length :=
    identLoop_le_len fuel s (by omega)
  unfold identifierC identifier
  rw [identLoopC_eq]
  dsimp only
  have hcond : (identLoop fuel s).start ≤ (identLoop fuel s).current ∧
      (identLoop fuel s).current ≤ (identLoop fuel s).source.length ∧
      isCharBoundary (identLoop fuel s).source
        ((identLoop fuel s).start) = true ∧
      isCharBoundary (identLoop fuel s).source
        ((identLoop fuel s).current) = true := by
    rw [hA.1, hA.2.2.2.1]
    have hcur := hA.2.2.2.2.2
    refine ⟨by omega, hdlen, ?_, ?_⟩
    · exact boundary_of_byte_lt (by omega) (lt128_of_alnum ha')
    · refine boundary_of_prev hv hdlen ?_
      intro hpos
      apply lt128_of_alnum
      rcases Nat.lt_or_ge ((identLoop fuel s).current - 1) s.current with hsm | hbig
      · have : (identLoop fuel s).current - 1 = s.start := by omega
        rw [this]
        exact ha'
      · exact hmax.1 _ hbig (by omega)
  rw [sliceC, if_pos hcond]

/-! ### One checked dispatch step never fails -/

set_option maxHeartbeats 2000000 in
theorem scan_tokenC_eq (s : Scanner)
    (hv : ValidUtf8Tail s.source)
    (hcur : s.current < s.source.length)
    (hstart : s.start = s.current) :
    scan_tokenC s = some (scan_token s) := by
  unfold scan_tokenC scan_token advance
  rw [advanceC, if_pos hcur]
  dsimp only
  by_cases h1 : s.source.getD s.current 0 = 40
  · rw [if_pos h1, if_pos h1]
    refine add_tokenC_eq _ _ (by dsimp only; omega) (by dsimp only; omega) ?_ ?_
    · dsimp only
      rw [hstart]
      exact boundary_of_byte_lt (by omega) (by rw [h1]; decide)
    · dsimp only
      refine boundary_of_prev hv (by omega) ?_
      intro _
      simp only [Nat.add_sub_cancel]
      rw [h1]
      decide
  rw [if_neg h1, if_neg h1]
  by_cases h2 : s.source.getD s.current 0 = 41
  · rw [if_pos h2, if_pos h2]
    refine add_tokenC_eq _ _ (by dsimp only; omega) (by dsimp only; omega) ?_ ?_
    · dsimp only
      rw [hstart]
      exact boundary_of_byte_lt (by omega) (by rw [h2]; decide)
    · dsimp only
      refine boundary_of_prev hv (by omega) ?_
      intro _
      simp only [Nat.add_sub_cancel]
      rw [h2]
      decide
  rw [if_neg h2, if_neg h2]
  by_cases h3 : s.source.getD s.current 0 = 123
  · rw [if_pos h3, if_pos h3]
    refine add_tokenC_eq _ _ (by dsimp only; omega) (by dsimp only; omega) ?_ ?_
    · dsimp only
      rw [hstart]
      exact boundary_of_byte_lt (by omega) (by rw [h3]; decide)
    · dsimp only
      refine boundary_of_prev hv (by omega) ?_
      intro _
      simp only [Nat.add_sub_cancel]
      rw [h3]
      decide
  rw [if_neg h3, if_neg h3]
  by_cases h4 : s.source.getD s.current 0 = 125
  · rw [if_pos h4, if_pos h4]
    refine add_tokenC_eq _ _ (by dsimp only; omega) (by dsimp only; omega) ?_ ?_
    · dsimp only
      rw [hstart]
      exact boundary_of_byte_lt (by omega) (by rw [h4]; decide)
    · dsimp only
      refine boundary_of_prev hv (by omega) ?_
      intro _
      simp only [Nat.add_sub_cancel]
      rw [h4]
      decide
  rw [if_neg h4, if_neg h4]
  by_cases h5 : s.source.getD s.current 0 = 44
  · rw [if_pos h5, if_pos h5]
    refine add_tokenC_eq _ _ (by dsimp only; omega) (by dsimp only; omega) ?_ ?_
    · dsimp only
      rw [hstart]
      exact boundary_of_byte_lt (by omega) (by rw [h5]; decide)
    · dsimp only
      refine boundary_of_prev hv (by omega) ?_
      intro _
      simp only [Nat.add_sub_cancel]
      rw [h5]
      decide
  rw [if_neg h5, if_neg h5]
  by_cases h6 : s.source.getD s.current 0 = 46
  · rw [if_pos h6, if_pos h6]
    refine add_tokenC_eq _ _ (by dsimp only; omega) (by dsimp only; omega) ?_ ?_
    · dsimp only
      rw [hstart]
      exact boundary_of_byte_lt (by omega) (by rw [h6]; decide)
    · dsimp only
      refine boundary_of_prev hv (by omega) ?_
      intro _
      simp only [Nat.add_sub_cancel]
      rw [h6]
      decide
  rw [if_neg h6, if_neg h6]
  by_cases h7 : s.source.getD s.current 0 = 45
  · rw [if_pos h7, if_pos h7]
    refine add_tokenC_eq _ _ (by dsimp only; omega) (by dsimp only; omega) ?_ ?_
    · dsimp only
      rw [hstart]
      exact boundary_of_byte_lt (by omega) (by rw [h7]; decide)
    · dsimp only
      refine boundary_of_prev hv (by omega) ?_
      intro _
      simp only [Nat.add_sub_cancel]
      rw [h7]
      decide
  rw [if_neg h7, if_neg h7]
  by_cases h8 : s.source.getD s.current 0 = 43
  · rw [if_pos h8, if_pos h8]
    refine add_tokenC_eq _ _ (by dsimp only; omega) (by dsimp only; omega) ?_ ?_
    · dsimp only
      rw [hstart]
      exact boundary_of_byte_lt (by omega) (by rw [h8]; decide)
    · dsimp only
      refine boundary_of_prev hv (by omega) ?_
      intro _
      simp only [Nat.add_sub_cancel]
      rw [h8]
      decide
  rw [if_neg h8, if_neg h8]
  by_cases h9 : s.source.getD s.current 0 = 59
  · rw [if_pos h9, if_pos h9]
    refine add_tokenC_eq _ _ (by dsimp only; omega) (by dsimp only; omega) ?_ ?_
    · dsimp only
      rw [hstart]
      exact boundary_of_byte_lt (by omega) (by rw [h9]; decide)
    · dsimp only
      refine boundary_of_prev hv (by omega) ?_
      intro _
      simp only [Nat.add_sub_cancel]
      rw [h9]
      decide
  rw [if_neg h9, if_neg h9]
  by_cases h10 : s.source.getD s.current 0 = 42
  · rw [if_pos h10, if_pos h10]
    refine add_tokenC_eq _ _ (by dsimp only; omega) (by dsimp only; omega) ?_ ?_
    · dsimp only
      rw [hstart]
      exact boundary_of_byte_lt (by omega) (by rw [h10]; decide)
    · dsimp only
      refine boundary_of_prev hv (by omega) ?_
      intro _
      simp only [Nat.add_sub_cancel]
      rw [h10]
      decide
  rw [if_neg h10, if_neg h10]
  by_cases h11 : s.source.getD s.current 0 = 33
  · rw [if_pos h11, if_pos h11]
    by_cases hm : (match_char 61 { s with current := s.current + 1 }).1 = true
    · rw [if_pos hm, match_char_snd, if_pos hm]
      have hm2 : s.source.getD (s.current + 1) 0 = 61 :=
        (@match_char_true_iff 61 (by decide) { s with current := s.current + 1 }).mp hm
      have hlt2 : s.current + 1 < s.source.length :=
        lt_length_of_getD_ne (by rw [hm2]; decide)
      refine add_tokenC_eq _ _ (by dsimp only; omega) (by dsimp only; omega) ?_ ?_
      · dsimp only
        rw [hstart]
        exact boundary_of_byte_lt (by omega) (by rw [h11]; decide)
      · dsimp only
        refine boundary_of_prev hv (by omega) ?_
        intro _
        simp only [Nat.add_sub_cancel]
        rw [hm2]
        decide
    · rw [if_neg hm, match_char_snd, if_neg hm]
      refine add_tokenC_eq _ _ (by dsimp only; omega) (by dsimp only; omega) ?_ ?_
      · dsimp only
        rw [hstart]
        exact boundary_of_byte_lt (by omega) (by rw [h11]; decide)
      · dsimp only
        refine boundary_of_prev hv (by omega) ?_
        intro _
        simp only [Nat.add_sub_cancel]
        rw [h11]
        decide
  rw [if_neg h11, if_neg h11]
  by_cases h12 : s.source.getD s.current 0 = 61
  · rw [if_pos h12, if_pos h12]
    by_cases hm : (match_char 61 { s with current := s.current + 1 }).1 = true
    · rw [if_pos hm, match_char_snd, if_pos hm]
      have hm2 : s.source.getD (s.current + 1) 0 = 61 :=
        (@match_char_true_iff 61 (by decide) { s with current := s.current + 1 }).mp hm
      have hlt2 : s.current + 1 < s.source.length :=
        lt_length_of_getD_ne (by rw [hm2]; decide)
      refine add_tokenC_eq _ _ (by dsimp only; omega) (by dsimp only; omega) ?_ ?_
      · dsimp only
        rw [hstart]
        exact boundary_of_byte_lt (by omega) (by rw [h12]; decide)
      · dsimp only
        refine boundary_of_prev hv (by omega) ?_
        intro _
        simp only [Nat.add_sub_cancel]
        rw [hm2]
        decide
    · rw [if_neg hm, match_char_snd, if_neg hm]
      refine add_tokenC_eq _ _ (by dsimp only; omega) (by dsimp only; omega) ?_ ?_
      · dsimp only
        rw [hstart]
        exact boundary_of_byte_lt (by omega) (by rw [h12]; decide)
      · dsimp only
        refine boundary_of_prev hv (by omega) ?_
        intro _
        simp only [Nat.add_sub_cancel]
        rw [h12]
        decide
  rw [if_neg h12, if_neg h12]
  by_cases h13 : s.source.getD s.current 0 = 60
  · rw [if_pos h13, if_pos h13]
    by_cases hm : (match_char 61 { s with current := s.current + 1 }).1 = true
    · rw [if_pos hm, match_char_snd, if_pos hm]
      have hm2 : s.source.getD (s.current + 1) 0 = 61 :=
        (@match_char_true_iff 61 (by decide) { s with current := s.current + 1 }).mp hm
      have hlt2 : s.current + 1 < s.source.length :=
        lt_length_of_getD_ne (by rw [hm2]; decide)
      refine add_tokenC_eq _ _ (by dsimp only; omega) (by dsimp only; omega) ?_ ?_
      · dsimp only
        rw [hstart]
        exact boundary_of_byte_lt (by omega) (by rw [h13]; decide)
      · dsimp only
        refine boundary_of_prev hv (by omega) ?_
        intro _
        simp only [Nat.add_sub_cancel]
        rw [hm2]
        decide
    · rw [if_neg hm, match_char_snd, if_neg hm]
      refine add_tokenC_eq _ _ (by dsimp only; omega) (by dsimp only; omega) ?_ ?_
      · dsimp only
        rw [hstart]
        exact boundary_of_byte_lt (by omega) (by rw [h13]; decide)
      · dsimp only
        refine boundary_of_prev hv (by omega) ?_
        intro _
        simp only [Nat.add_sub_cancel]
        rw [h13]
        decide
  rw [if_neg h13, if_neg h13]
  by_cases h14 : s.source.getD s.current 0 = 62
  · rw [if_pos h14, if_pos h14]
    by_cases hm : (match_char 61 { s with current := s.current + 1 }).1 = true
    · rw [if_pos hm, match_char_snd, if_pos hm]
      have hm2 : s.source.getD (s.current + 1) 0 = 61 :=
        (@match_char_true_iff 61 (by decide) { s with current := s.current + 1 }).mp hm
      have hlt2 : s.current + 1 < s.source.length :=
        lt_length_of_getD_ne (by rw [hm2]; decide)
      refine add_tokenC_eq _ _ (by dsimp only; omega) (by dsimp only; omega) ?_ ?_
      · dsimp only
        rw [hstart]
        exact boundary_of_byte_lt (by omega) (by rw [h14]; decide)
      · dsimp only
        refine boundary_of_prev hv (by omega) ?_
        intro _
        simp only [Nat.add_sub_cancel]
        rw [hm2]
        decide
    · rw [if_neg hm, match_char_snd, if_neg hm]
      refine add_tokenC_eq _ _ (by dsimp only; omega) (by dsimp only; omega) ?_ ?_
      · dsimp only
        rw [hstart]
        exact boundary_of_byte_lt (by omega) (by rw [h14]; decide)
      · dsimp only
        refine boundary_of_prev hv (by omega) ?_
        intro _
        simp only [Nat.add_sub_cancel]
        rw [h14]
        decide
  rw [if_neg h14, if_neg h14]
  by_cases h15 : s.source.getD s.current 0 = 47
  · rw [if_pos h15, if_pos h15]
    by_cases hm : (match_char 47 { s with current := s.current + 1 }).1 = true
    · rw [if_pos hm, if_pos hm]
      exact commentLoopC_eq _ _
    · rw [if_neg hm, if_neg hm, match_char_snd, if_neg hm]
      refine add_tokenC_eq _ _ (by dsimp only; omega) (by dsimp only; omega) ?_ ?_
      · dsimp only
        rw [hstart]
        exact boundary_of_byte_lt (by omega) (by rw [h15]; decide)
      · dsimp only
        refine boundary_of_prev hv (by omega) ?_
        intro _
        simp only [Nat.add_sub_cancel]
        rw [h15]
        decide
  rw [if_neg h15, if_neg h15]
  by_cases h16 : s.source.getD s.current 0 = 32
  · rw [if_pos h16, if_pos h16]
  rw [if_neg h16, if_neg h16]
  by_cases h17 : s.source.getD s.current 0 = 13
  · rw [if_pos h17, if_pos h17]
  rw [if_neg h17, if_neg h17]
  by_cases h18 : s.source.getD s.current 0 = 9
  · rw [if_pos h18, if_pos h18]
  rw [if_neg h18, if_neg h18]
  by_cases h19 : s.source.getD s.current 0 = 10
  · rw [if_pos h19, if_pos h19]
  rw [if_neg h19, if_neg h19]
  by_cases h20 : s.source.getD s.current 0 = 34
  · rw [if_pos h20, if_pos h20]
    refine stringC_eq _ _ (by exact hv) ?_ (by dsimp only; rw [hstart]) (by dsimp only; omega)
    dsimp only
    rw [hstart]
    exact h20
  rw [if_neg h20, if_neg h20]
  by_cases h21 : isAsciiDigit (s.source.getD s.current 0) = true
  · rw [if_pos h21, if_pos h21]
    refine numberC_eq _ _ (by exact hv) ?_ (by dsimp only; rw [hstart]) (by dsimp only; omega)
    dsimp only
    rw [hstart]
    exact h21
  rw [if_neg h21, if_neg h21]
  by_cases h22 : (isAsciiAlpha (s.source.getD s.current 0) || s.source.getD s.current 0 == 95) = true
  · rw [if_pos h22, if_pos h22]
    refine identifierC_eq _ _ (by exact hv) ?_ (by dsimp only; rw [hstart]) (by dsimp only; omega)
    dsimp only
    rw [hstart]
    exact h22
  rw [if_neg h22, if_neg h22]

theorem scanLoopC_eq (fuel : Nat) : ∀ s : Scanner, ValidUtf8Tail s.source →
    scanLoopC fuel s = some (scanLoop fuel s) := by
  induction fuel with
  | zero => intro s _; rfl
  | succ n ih =>
    intro s hv
    rw [scanLoopC, scanLoop]
    by_cases hg : (!(is_at_end s)) = true
    · rw [if_pos hg, if_pos hg]
      have hcur : s.current < s.source.length := by
        simp only [Bool.not_eq_true', is_at_end, decide_eq_false_iff_not] at hg
        omega
      rw [scan_tokenC_eq { s with start := s.current } (by exact hv) (by exact hcur) rfl]
      dsimp only
      refine ih _ ?_
      have hsrc := (scan_token_progress { s with start := s.current }).1.1
      rw [hsrc]
      exact hv
    · rw [if_neg hg, if_neg hg]

/-- On any valid UTF-8 source, the fully checked scanner succeeds and
returns exactly the result of the plain scanner: no read in `advance` is
out of bounds and every token slice is a valid, boundary-aligned range. -/
theorem scan_tokensC_eq (src : List Nat) (hv : ValidUtf8Tail src) :
    scan_tokensC src = some (scan_tokens src) := by
  unfold scan_tokensC scan_tokens
  rw [scanLoopC_eq (src.length + 1) (new src) (by exact hv)]

/-- The UTF-8 tail property is a bounded check, hence decidable. -/
instance decidableValidUtf8Tail (src : List Nat) :
    Decidable (ValidUtf8Tail src) := by
  unfold ValidUtf8Tail
  infer_instance

theorem startsLexeme_false_of_ge128 {c : Nat} (h : 128 ≤ c) :
    startsLexeme c = false := by
  rw [Bool.eq_false_iff]
  intro hx
  simp only [startsLexeme, Bool.or_eq_true, decide_eq_true_eq, List.mem_cons,
    List.mem_singleton, isAsciiDigit, isAsciiAlpha, isAsciiAlnum,
    Bool.and_eq_true, beq_iff_eq, List.not_mem_nil, or_false] at hx
  omega

end Scanner

/-! ### Example inputs (ASCII byte lists) used by the concrete parts of the
claims -/

/-- Bytes of the five-character input `"hi"` (quotes included). -/
def srcHi : List Nat := [34, 104, 105, 34]

/-- Bytes of `"unterminated` (opening quote, no closing quote). -/
def srcUnterminated : List Nat :=
  [34, 117, 110, 116, 101, 114, 109, 105, 110, 97, 116, 101, 100]

/-- Bytes of `1.` -/
def srcOneDot : List Nat := [49, 46]

/-- Bytes of `123 45.67` -/
def srcNumbers : List Nat := [49, 50, 51, 32, 52, 53, 46, 54, 55]

/-- Bytes of `var a = 1; // comment\nprint a;` -/
def srcLineExample : List Nat :=
  [118, 97, 114, 32, 97, 32, 61, 32, 49, 59, 32, 47, 47, 32, 99, 111, 109,
   109, 101, 110, 116, 10, 112, 114, 105, 110, 116, 32, 97, 59]

/-- Bytes of the string literal `"a\nb"` spanning two lines. -/
def srcMultiline : List Nat := [34, 97, 10, 98, 34]

/-- The three UTF-8 bytes of the euro sign. -/
def srcEuro : List Nat := [226, 130, 172]

/-- Bytes of `(#)@`: two well-formed tokens around two invalid bytes. -/
def srcErrs : List Nat := [40, 35, 41, 64]

/-- Bytes of `forever`. -/
def srcForever : List Nat := [102, 111, 114, 101, 118, 101, 114]

/-! ### Claims -/

/-- C1, counterexample: scanning the four bytes of `"hi"` does NOT produce
a STRING token whose lexeme includes the quote delimiters; the lexemes of
the output are exactly `hi` (unquoted) and the empty EOF lexeme, and the
unquoted lexeme differs from the quoted source text. -/
theorem claim_C1_counterexample :
    ¬ ((Scanner.scan_tokens srcHi).tokens.map Token.lexeme =
        [[34, 104, 105, 34], []]) ∧
    (Scanner.scan_tokens srcHi).tokens.map Token.lexeme = [[104, 105], []] := by
  decide

/-- C1 (amended): for every terminated string literal the scanner emits a
STRING token whose lexeme and literal are BOTH exactly the content strictly
between the quotes with no escape processing (the delimiters are not part
of the lexeme); scanning `"hi"` yields exactly one STRING token with lexeme
`hi` and literal `hi`, followed by EOF, and no error. -/
theorem claim_C1 :
    (∀ (fuel : Nat) (s : Scanner),
       Scanner.is_at_end (Scanner.stringLoop fuel s) = false →
       ∃ v, (Scanner.string fuel s).tokens = s.tokens ++
              [⟨TokenType.String, v, some v, (Scanner.stringLoop fuel s).line⟩] ∧
            v = Scanner.sliceBytes s.source (s.start + 1)
                  (Scanner.stringLoop fuel s).current ∧
            (Scanner.string fuel s).errors = s.errors) ∧
    (Scanner.scan_tokens srcHi).tokens =
      [⟨TokenType.String, [104, 105], some [104, 105], 1⟩,
       ⟨TokenType.Eof, [], none, 1⟩] ∧
    (Scanner.scan_tokens srcHi).errors = [] := by
  refine ⟨?_, by decide, by decide⟩
  intro fuel s h
  have ht := Scanner.string_fields_terminated fuel s h
  exact ⟨_, ht.1, rfl, ht.2.1⟩

/-- C1, witness: the universal part of the amended claim applied to the
concrete scanner state reached just after the opening quote of `"hi"`. -/
theorem claim_C1_witness :
    Scanner.is_at_end (Scanner.stringLoop 5 ⟨srcHi, [], 0, 1, 1, []⟩) = false ∧
    ∃ v, (Scanner.string 5 ⟨srcHi, [], 0, 1, 1, []⟩).tokens = [] ++
           [⟨TokenType.String, v, some v,
             (Scanner.stringLoop 5 ⟨srcHi, [], 0, 1, 1, []⟩).line⟩] ∧
         v = Scanner.sliceBytes srcHi (0 + 1)
               (Scanner.stringLoop 5 ⟨srcHi, [], 0, 1, 1, []⟩).current ∧
         (Scanner.string 5 ⟨srcHi, [], 0, 1, 1, []⟩).errors = [] :=
  ⟨by decide, claim_C1.1 5 ⟨srcHi, [], 0, 1, 1, []⟩ (by decide)⟩

/-- C2: when a string literal reaches end of input unterminated, the
scanner emits no token at all for it and appends exactly one error reading
`Unterminated string.` at the line current when end of input is reached;
concretely, scanning `"unterminated` yields only the EOF token and exactly
that one error at line 1. -/
theorem claim_C2 :
    (∀ (fuel : Nat) (s : Scanner),
       Scanner.is_at_end (Scanner.stringLoop fuel s) = true →
       (Scanner.string fuel s).tokens = s.tokens ∧
       (Scanner.string fuel s).errors = s.errors ++
         [((Scanner.stringLoop fuel s).line, Scanner.unterminatedStringMsg)]) ∧
    (Scanner.scan_tokens srcUnterminated).tokens =
      [⟨TokenType.Eof, [], none, 1⟩] ∧
    (Scanner.scan_tokens srcUnterminated).errors =
      [(1, Scanner.unterminatedStringMsg)] ∧
    Scanner.unterminatedStringMsg =
      ['U','n','t','e','r','m','i','n','a','t','e','d',' ',
       's','t','r','i','n','g','.'] := by
  refine ⟨?_, by decide, by decide, by decide⟩
  intro fuel s h
  have hu := Scanner.string_fields_unterminated fuel s h
  exact ⟨hu.1, hu.2.1⟩

/-- C2, witness: the universal part applied to the concrete scanner state
reached just after the opening quote of `"unterminated`. -/
theorem claim_C2_witness :
    Scanner.is_at_end
      (Scanner.stringLoop 14 ⟨srcUnterminated, [], 0, 1, 1, []⟩) = true ∧
    ((Scanner.string 14 ⟨srcUnterminated, [], 0, 1, 1, []⟩).tokens = [] ∧
     (Scanner.string 14 ⟨srcUnterminated, [], 0, 1, 1, []⟩).errors = [] ++
       [((Scanner.stringLoop 14 ⟨srcUnterminated, [], 0, 1, 1, []⟩).line,
         Scanner.unterminatedStringMsg)]) :=
  ⟨by decide, claim_C2.1 14 ⟨srcUnterminated, [], 0, 1, 1, []⟩ (by decide)⟩

/-- C3: for every input, the token list is non-empty and is some sequence
of non-EOF tokens followed by exactly one EOF token with an empty lexeme
and no literal; moreover each dispatch step only appends tokens at the end
of the list while the cursor moves strictly forward, so tokens appear in
the order their lexemes occur in the source. -/
theorem claim_C3 :
    (∀ src : List Nat,
       (Scanner.scan_tokens src).tokens ≠ [] ∧
       ∃ ts ln, (Scanner.scan_tokens src).tokens =
           ts ++ [⟨TokenType.Eof, [], none, ln⟩] ∧
         ∀ t ∈ ts, t.token_type ≠ TokenType.Eof) ∧
    (∀ s : Scanner,
       (∃ new, (Scanner.scan_token s).tokens = s.tokens ++ new) ∧
       s.current < (Scanner.scan_token s).current) := by
  constructor
  · intro src
    have hf := Scanner.scanLoop_facts (src.length + 1) (Scanner.new src)
    obtain ⟨_, _, _, ⟨ts, hts, hne⟩, _⟩ := hf
    constructor
    · unfold Scanner.scan_tokens
      dsimp only
      simp
    · refine ⟨ts, (Scanner.scanLoop (src.length + 1) (Scanner.new src)).line, ?_, hne⟩
      unfold Scanner.scan_tokens
      dsimp only
      rw [hts]
      simp [Scanner.new]
  · intro s
    have hp := Scanner.scan_token_progress s
    exact ⟨⟨hp.1.2.2.2.2.1.choose, hp.1.2.2.2.2.1.choose_spec.1⟩, hp.2⟩

/-- C3, witness: the EOF structure theorem applied to the concrete input
`"hi"`. -/
theorem claim_C3_witness :
    (Scanner.scan_tokens srcHi).tokens ≠ [] ∧
    ∃ ts ln, (Scanner.scan_tokens srcHi).tokens =
        ts ++ [⟨TokenType.Eof, [], none, ln⟩] ∧
      ∀ t ∈ ts, t.token_type ≠ TokenType.Eof :=
  claim_C3.1 srcHi

/-- Concrete scanner state used by the C4 witness: scanning `1.` just
after the first digit was consumed. -/
def c4s : Scanner := ⟨srcOneDot, [], 0, 1, 1, []⟩

/-- C4: number scanning consumes a maximal run of ASCII digits, then
consumes a dot and a further maximal digit run only when the byte directly
after the dot is also a digit; a trailing dot is never consumed, and the
emitted NUMBER token's lexeme and literal are both exactly the matched
text. Concretely `1.` scans to NUMBER `1` then DOT, and `123 45.67` to
NUMBER literals `123` and `45.67`. -/
theorem claim_C4 :
    (∀ (fuel : Nat) (s : Scanner),
       (Scanner.number fuel s).tokens = s.tokens ++
         [⟨TokenType.Number,
           Scanner.sliceBytes s.source s.start (Scanner.number fuel s).current,
           some (Scanner.sliceBytes s.source s.start
             (Scanner.number fuel s).current),
           s.line⟩] ∧
       (Scanner.number fuel s).current = (Scanner.numberEndState fuel s).current) ∧
    (∀ (fuel : Nat) (s : Scanner),
       s.source.length ≤ s.current + fuel →
       (s.current ≤ (Scanner.digitsLoop fuel s).current ∧
        (∀ j, s.current ≤ j → j < (Scanner.digitsLoop fuel s).current →
          Scanner.isAsciiDigit (s.source.getD j 0) = true) ∧
        Scanner.isAsciiDigit
          (s.source.getD (Scanner.digitsLoop fuel s).current 0) = false ∧
        ((s.source.getD (Scanner.digitsLoop fuel s).current 0 = 46 ∧
            Scanner.isAsciiDigit
              (s.source.getD ((Scanner.digitsLoop fuel s).current + 1) 0) = true) →
           ((Scanner.digitsLoop fuel s).current + 1 <
              (Scanner.numberEndState fuel s).current ∧
            (∀ j, (Scanner.digitsLoop fuel s).current + 1 ≤ j →
              j < (Scanner.numberEndState fuel s).current →
              Scanner.isAsciiDigit (s.source.getD j 0) = true) ∧
            Scanner.isAsciiDigit
              (s.source.getD (Scanner.numberEndState fuel s).current 0) = false)) ∧
        (¬ (s.source.getD (Scanner.digitsLoop fuel s).current 0 = 46 ∧
            Scanner.isAsciiDigit
              (s.source.getD ((Scanner.digitsLoop fuel s).current + 1) 0) = true) →
           (Scanner.numberEndState fuel s).current =
             (Scanner.digitsLoop fuel s).current))) ∧
    (Scanner.scan_tokens srcOneDot).tokens =
      [⟨TokenType.Number, [49], some [49], 1⟩,
       ⟨TokenType.Dot, [46], none, 1⟩,
       ⟨TokenType.Eof, [], none, 1⟩] ∧
    (Scanner.scan_tokens srcNumbers).tokens =
      [⟨TokenType.Number, [49, 50, 51], some [49, 50, 51], 1⟩,
       ⟨TokenType.Number, [52, 53, 46, 54, 55], some [52, 53, 46, 54, 55], 1⟩,
       ⟨TokenType.Eof, [], none, 1⟩] :=
  ⟨fun fuel s => ⟨(Scanner.number_fields fuel s).2.2.2.2.2, rfl⟩,
   fun fuel s h => Scanner.numberEndState_spec fuel s h,
   by decide, by decide⟩

/-- C4, witness: the maximal-munch part applied to the scanner state of
`1.` just after the first digit; the trailing dot is not consumed. -/
theorem claim_C4_witness :
    c4s.source.length ≤ c4s.current + 2 ∧
    (c4s.current ≤ (Scanner.digitsLoop 2 c4s).current ∧
     (∀ j, c4s.current ≤ j → j < (Scanner.digitsLoop 2 c4s).current →
       Scanner.isAsciiDigit (c4s.source.getD j 0) = true) ∧
     Scanner.isAsciiDigit
       (c4s.source.getD (Scanner.digitsLoop 2 c4s).current 0) = false ∧
     ((c4s.source.getD (Scanner.digitsLoop 2 c4s).current 0 = 46 ∧
         Scanner.isAsciiDigit
           (c4s.source.getD ((Scanner.digitsLoop 2 c4s).current + 1) 0) = true) →
        ((Scanner.digitsLoop 2 c4s).current + 1 <
           (Scanner.numberEndState 2 c4s).current ∧
         (∀ j, (Scanner.digitsLoop 2 c4s).current + 1 ≤ j →
           j < (Scanner.numberEndState 2 c4s).current →
           Scanner.isAsciiDigit (c4s.source.getD j 0) = true) ∧
         Scanner.isAsciiDigit
           (c4s.source.getD (Scanner.numberEndState 2 c4s).current 0) = false)) ∧
     (¬ (c4s.source.getD (Scanner.digitsLoop 2 c4s).current 0 = 46 ∧
         Scanner.isAsciiDigit
           (c4s.source.getD ((Scanner.digitsLoop 2 c4s).current + 1) 0) = true) →
        (Scanner.numberEndState 2 c4s).current =
          (Scanner.digitsLoop 2 c4s).current)) :=
  ⟨by decide, claim_C4.2.1 2 c4s (by decide)⟩

/-- C5: for each of the operator bytes `!` `=` `<` `>`, if the next byte is
`=` the scanner consumes both bytes and emits the two-character operator
token; otherwise it emits the one-character token and leaves the following
byte unconsumed as the start of the next lexeme. -/
theorem claim_C5 : ∀ (s : Scanner) (c : Nat) (t1 t2 : TokenType),
    (c, t1, t2) ∈ Scanner.opTable →
    s.source.getD s.current 0 = c →
    (s.source.getD (s.current + 1) 0 = 61 →
       Scanner.scan_token s = { s with
         current := s.current + 2,
         tokens := s.tokens ++
           [⟨t2, Scanner.sliceBytes s.source s.start (s.current + 2),
             none, s.line⟩] }) ∧
    (s.source.getD (s.current + 1) 0 ≠ 61 →
       Scanner.scan_token s = { s with
         current := s.current + 1,
         tokens := s.tokens ++
           [⟨t1, Scanner.sliceBytes s.source s.start (s.current + 1),
             none, s.line⟩] }) :=
  fun s _ _ _ hop h => Scanner.scan_token_op s hop h

/-- Concrete scanner state used by the C5 witness: the input `!=` about to
be dispatched. -/
def c5s : Scanner := ⟨[33, 61], [], 0, 0, 1, []⟩

/-- C5, witness: on `!=` the combined BANG_EQUAL token is emitted and both
bytes are consumed. -/
theorem claim_C5_witness :
    ((33, TokenType.Bang, TokenType.BangEqual) ∈ Scanner.opTable) ∧
    c5s.source.getD c5s.current 0 = 33 ∧
    c5s.source.getD (c5s.current + 1) 0 = 61 ∧
    Scanner.scan_token c5s = ⟨[33, 61],
      [⟨TokenType.BangEqual, [33, 61], none, 1⟩], 0, 2, 1, []⟩ :=
  ⟨by decide, by decide, by decide,
   (claim_C5 c5s 33 TokenType.Bang TokenType.BangEqual
     (by decide) (by decide)).1 (by decide)⟩

/-- C6: identifier scanning consumes a maximal run of ASCII alphanumerics
and underscores; the token type is the keyword's exact case-sensitive match
from the sixteen-entry table and IDENTIFIER otherwise; appending a further
alphanumeric or underscore byte to a reserved word always yields
IDENTIFIER; and no literal is attached. -/
theorem claim_C6 :
    (∀ (fuel : Nat) (s : Scanner),
       (Scanner.identifier fuel s).tokens = s.tokens ++
         [⟨Scanner.keywordType (Scanner.sliceBytes s.source s.start
             (Scanner.identifier fuel s).current),
           Scanner.sliceBytes s.source s.start (Scanner.identifier fuel s).current,
           none, s.line⟩] ∧
       (Scanner.identifier fuel s).current = (Scanner.identLoop fuel s).current) ∧
    (∀ (fuel : Nat) (s : Scanner), s.source.length ≤ s.current + fuel →
       (∀ j, s.current ≤ j → j < (Scanner.identLoop fuel s).current →
          (Scanner.isAsciiAlnum (s.source.getD j 0) ||
            s.source.getD j 0 == 95) = true) ∧
       (Scanner.isAsciiAlnum
          (s.source.getD (Scanner.identLoop fuel s).current 0) ||
          s.source.getD (Scanner.identLoop fuel s).current 0 == 95) = false) ∧
    (∀ p ∈ Scanner.keywords, Scanner.keywordType p.1 = p.2 ∧
       (Scanner.scan_tokens p.1).tokens =
         [⟨p.2, p.1, none, 1⟩, ⟨TokenType.Eof, [], none, 1⟩]) ∧
    (∀ p ∈ Scanner.keywords, ∀ c : Nat,
       (Scanner.isAsciiAlnum c || c == 95) = true →
       Scanner.keywordType (p.1 ++ [c]) = TokenType.Identifier) ∧
    (Scanner.scan_tokens srcForever).tokens =
      [⟨TokenType.Identifier, srcForever, none, 1⟩,
       ⟨TokenType.Eof, [], none, 1⟩] :=
  ⟨fun fuel s => ⟨(Scanner.identifier_fields fuel s).2.2.2.2.2, rfl⟩,
   fun fuel s h => Scanner.identLoop_maximal fuel s h,
   by decide,
   Scanner.keywords_extend_identifier,
   by decide⟩

/-- C6, witness: `for` is in the keyword table, `e` is alphanumeric, and
`for` extended by `e` looks up as IDENTIFIER. -/
theorem claim_C6_witness :
    (([102, 111, 114], TokenType.For) ∈ Scanner.keywords) ∧
    (Scanner.isAsciiAlnum 101 || (101 : Nat) == 95) = true ∧
    Scanner.keywordType ([102, 111, 114] ++ [101]) = TokenType.Identifier :=
  ⟨by decide, by decide,
   claim_C6.2.2.2.1 ([102, 111, 114], TokenType.For) (by decide) 101 (by decide)⟩

/-- C7: the line counter starts at 1 and never decreases; a newline byte at
the dispatch level and a newline byte inside a string body each bump it by
exactly one; for all bytes other than newline and quote the dispatch leaves
the line unchanged, every emitted token carries the line at which its
scanning finished (for a multi-line string that is the closing-quote line),
and the spec's line-numbering examples hold concretely. -/
theorem claim_C7 :
    (∀ src : List Nat, (Scanner.new src).line = 1) ∧
    (∀ s : Scanner, s.line ≤ (Scanner.scan_token s).line) ∧
    (∀ (fuel : Nat) (s : Scanner), s.line ≤ (Scanner.scanLoop fuel s).line) ∧
    (∀ s : Scanner, s.source.getD s.current 0 = 10 →
       Scanner.scan_token s =
         { s with current := s.current + 1, line := s.line + 1 }) ∧
    (∀ (fuel : Nat) (s : Scanner), Scanner.peek s = 10 →
       Scanner.stringLoop (fuel + 1) s =
         Scanner.stringLoop fuel
           { s with line := s.line + 1, current := s.current + 1 }) ∧
    (∀ s : Scanner, s.source.getD s.current 0 ≠ 10 →
       s.source.getD s.current 0 ≠ 34 →
       (Scanner.scan_token s).line = s.line) ∧
    (∀ s : Scanner, ∃ ts, (Scanner.scan_token s).tokens = s.tokens ++ ts ∧
       ∀ t ∈ ts, t.line = (Scanner.scan_token s).line) ∧
    (Scanner.scan_tokens srcLineExample).tokens.map Token.line =
      [1, 1, 1, 1, 1, 2, 2, 2, 2] ∧
    (Scanner.scan_tokens srcMultiline).tokens.map Token.line = [2, 2] :=
  ⟨fun _ => rfl,
   fun s => (Scanner.scan_token_progress s).1.2.2.2.1,
   fun fuel s => (Scanner.scanLoop_facts fuel s).2.2.1,
   fun s h => Scanner.scan_token_newline s h,
   fun fuel s h => Scanner.stringLoop_newline_step fuel s h,
   fun s h1 h2 => Scanner.scan_token_line_preserved s h1 h2,
   fun s => Scanner.scan_token_emitted_lines s,
   by decide, by decide⟩

/-- C7, witness: the newline rule applied to the one-byte input consisting
of a newline: the line goes from 1 to exactly 2 and no token is emitted. -/
theorem claim_C7_witness :
    (⟨[10], [], 0, 0, 1, []⟩ : Scanner).source.getD 0 0 = 10 ∧
    Scanner.scan_token ⟨[10], [], 0, 0, 1, []⟩ = ⟨[10], [], 0, 1, 2, []⟩ :=
  ⟨by decide, claim_C7.2.2.2.1 ⟨[10], [], 0, 0, 1, []⟩ (by decide)⟩

/-- C8: a byte that starts no lexeme appends exactly one error reading
`Unexpected character: <char>` at the current line, emits no token, and
the scan resumes at the very next byte; errors accumulate in order and
well-formed tokens before and after each error are still emitted. -/
theorem claim_C8 :
    (∀ (s : Scanner) (c : Nat), s.source.getD s.current 0 = c →
       Scanner.startsLexeme c = false →
       Scanner.scan_token s = { s with
         current := s.current + 1,
         errors := s.errors ++ [(s.line, Scanner.unexpectedCharMsg c)] }) ∧
    Scanner.unexpectedCharMsg 35 =
      ['U','n','e','x','p','e','c','t','e','d',' ',
       'c','h','a','r','a','c','t','e','r',':',' ','#'] ∧
    (Scanner.scan_tokens srcErrs).tokens =
      [⟨TokenType.LeftParen, [40], none, 1⟩,
       ⟨TokenType.RightParen, [41], none, 1⟩,
       ⟨TokenType.Eof, [], none, 1⟩] ∧
    (Scanner.scan_tokens srcErrs).errors =
      [(1, Scanner.unexpectedCharMsg 35), (1, Scanner.unexpectedCharMsg 64)] :=
  ⟨fun s _ h hno => Scanner.scan_token_unexpected s h hno,
   by decide, by decide, by decide⟩

/-- C8, witness: the unexpected-character rule applied to the one-byte
input `#`. -/
theorem claim_C8_witness :
    (⟨[35], [], 0, 0, 1, []⟩ : Scanner).source.getD 0 0 = 35 ∧
    Scanner.startsLexeme 35 = false ∧
    Scanner.scan_token ⟨[35], [], 0, 0, 1, []⟩ =
      ⟨[35], [], 0, 1, 1, [(1, Scanner.unexpectedCharMsg 35)]⟩ :=
  ⟨by decide, by decide,
   claim_C8.1 ⟨[35], [], 0, 0, 1, []⟩ 35 (by decide) (by decide)⟩

/-- C9: on every valid-UTF-8 source the fully bounds- and boundary-checked
scanner succeeds and returns exactly the plain scanner's result, so no
`advance` read is out of bounds and every token slice is a valid
char-boundary-aligned range; `peek` and `peek_next` return the NUL sentinel
instead of reading past the end. -/
theorem claim_C9 :
    (∀ src : List Nat, Scanner.ValidUtf8Tail src →
       Scanner.scan_tokensC src = some (Scanner.scan_tokens src)) ∧
    (∀ s : Scanner, Scanner.is_at_end s = true → Scanner.peek s = 0) ∧
    (∀ s : Scanner, s.source.length ≤ s.current + 1 →
       Scanner.peek_next s = 0) := by
  refine ⟨fun src hv => Scanner.scan_tokensC_eq src hv, ?_, ?_⟩
  · intro s h
    unfold Scanner.peek
    rw [if_pos h]
  · intro s h
    unfold Scanner.peek_next
    rw [if_pos h]

/-- C9, witness: the checked scanner succeeds on the bytes of `"é"(`,
whose string content contains a two-byte UTF-8 character. -/
theorem claim_C9_witness :
    Scanner.ValidUtf8Tail [34, 195, 169, 34, 40] ∧
    Scanner.scan_tokensC [34, 195, 169, 34, 40] =
      some (Scanner.scan_tokens [34, 195, 169, 34, 40]) :=
  ⟨by decide, claim_C9.1 [34, 195, 169, 34, 40] (by decide)⟩

/-- C10: any byte `≥ 0x80` is handled by the error arm one byte at a time,
so each byte of a multi-byte UTF-8 character produces its own separate
`Unexpected character` error; the three bytes of the euro sign yield
exactly three errors and no token. -/
theorem claim_C10 :
    (∀ (s : Scanner) (c : Nat), s.source.getD s.current 0 = c → 128 ≤ c →
       Scanner.scan_token s = { s with
         current := s.current + 1,
         errors := s.errors ++ [(s.line, Scanner.unexpectedCharMsg c)] }) ∧
    (Scanner.scan_tokens srcEuro).tokens = [⟨TokenType.Eof, [], none, 1⟩] ∧
    (Scanner.scan_tokens srcEuro).errors =
      [(1, Scanner.unexpectedCharMsg 226), (1, Scanner.unexpectedCharMsg 130),
       (1, Scanner.unexpectedCharMsg 172)] ∧
    (Scanner.scan_tokens srcEuro).errors.length = srcEuro.length := by
  refine ⟨?_, by decide, by decide, by decide⟩
  intro s c h hge
  exact Scanner.scan_token_unexpected s h (Scanner.startsLexeme_false_of_ge128 hge)

/-- C10, witness: the per-byte error rule applied to a lone continuation
byte. -/
theorem claim_C10_witness :
    (⟨[200], [], 0, 0, 1, []⟩ : Scanner).source.getD 0 0 = 200 ∧
    (128 : Nat) ≤ 200 ∧
    Scanner.scan_token ⟨[200], [], 0, 0, 1, []⟩ =
      ⟨[200], [], 0, 1, 1, [(1, Scanner.unexpectedCharMsg 200)]⟩ :=
  ⟨by decide, by decide,
   claim_C10.1 ⟨[200], [], 0, 0, 1, []⟩ 200 (by decide) (by decide)⟩

end RustLox